import Mathlib

/-!
Verification of the hyphae-platform gateway core against its specification.

The definitions below are a shallow embedding of the TypeScript sources:

* `src/unnamed/part_003` — the price normalizer (`normalizeToUsdcCents`);
* `src/unnamed/part_017` — the availability route with the SSRF guard
  (`validateEndpointUrl`, `isUnsafeHostname`, `isPrivateIpv4`, `isPrivateIpv6`);
* `src/src/lib/availability-checker.ts` — `checkEndpoint`;
* the `AdapterRegistry` (`searchAll`, `withTimeout`, `sortAgents`) bundled in
  `src/src/lib/providers/coinbase-adapter.test.ts`;
* `src/src/lib/payment/x402.ts` — the x402 payment codec;
* `src/src/app/api/store/invoke/handler.ts` — the invoke route handler and
  `src/src/lib/providers/invoke-policy.ts` — the per-provider invoke policy.

JavaScript `BigInt` arithmetic is modelled with `Nat`/`Int`, JavaScript objects
obtained from `JSON.parse` with an explicit `Json` tree, and promise settlement
with explicit outcome values.  Machine-level concerns (wall-clock time, event
loop interleaving) are outside the embedding; the functions below are the
data-level content of the corresponding TypeScript functions.
-/

namespace Hyphae

/-! ## Shared character and string helpers (models of JavaScript primitives) -/

/-- ASCII decimal digit test (`0`–`9`). -/
def isDigitChar (c : Char) : Bool :=
  48 ≤ c.toNat && c.toNat ≤ 57

/-- ASCII hexadecimal digit test (`0-9a-fA-F`). -/
def isHexChar (c : Char) : Bool :=
  isDigitChar c || (97 ≤ c.toNat && c.toNat ≤ 102) || (65 ≤ c.toNat && c.toNat ≤ 70)

/-- Whitespace characters stripped by JavaScript `trim` (ASCII subset: space,
tab, line feed, carriage return, vertical tab, form feed). -/
def isWsChar (c : Char) : Bool :=
  c.toNat = 32 || c.toNat = 9 || c.toNat = 10 || c.toNat = 13 ||
  c.toNat = 11 || c.toNat = 12

/-- Decimal value of a list of ASCII digit characters, most significant first. -/
def decDigitsVal (cs : List Char) : Nat :=
  cs.foldl (fun acc c => acc * 10 + (c.toNat - 48)) 0

/-- Value of one hexadecimal digit character (upper or lower case). -/
def hexDigitVal (c : Char) : Nat :=
  if isDigitChar c then c.toNat - 48
  else if 97 ≤ c.toNat then c.toNat - 87
  else c.toNat - 55

/-- Value of a list of hexadecimal digit characters, most significant first. -/
def hexDigitsVal (cs : List Char) : Nat :=
  cs.foldl (fun acc c => acc * 16 + hexDigitVal c) 0

/-- Model of JavaScript string trimming on a character list: leading and
trailing whitespace removed.  (The JavaScript definition also strips some
non-ASCII space characters; the inputs quantified over in this development are
ASCII, where the two notions agree.) -/
def jsTrimList (cs : List Char) : List Char :=
  ((cs.dropWhile isWsChar).reverse.dropWhile isWsChar).reverse

/-- Model of `String.prototype.trim`. -/
def jsTrim (s : String) : String :=
  String.mk (jsTrimList s.data)

/-- ASCII upper-casing of one character (model of `toUpperCase` on the ASCII
range, which covers every asset symbol quantified over here). -/
def jsToUpperChar (c : Char) : Char :=
  if 97 ≤ c.toNat ∧ c.toNat ≤ 122 then Char.ofNat (c.toNat - 32) else c

/-- Model of `String.prototype.toUpperCase` (ASCII range). -/
def jsToUpper (s : String) : String :=
  String.mk (s.data.map jsToUpperChar)

/-- Model of the `BigInt(string)` conversion: optional surrounding whitespace,
empty string is `0`, `0x`/`0o`/`0b` prefixed unsigned literals, otherwise an
optionally signed decimal literal; anything else throws (`none`). -/
def jsBigIntOfString (s : String) : Option Int :=
  let t := jsTrimList s.data
  if t = [] then some 0
  else if t.take 2 = ['0', 'x'] ∨ t.take 2 = ['0', 'X'] then
    let ds := t.drop 2
    if ds ≠ [] ∧ ds.all isHexChar then some (hexDigitsVal ds) else none
  else if t.take 2 = ['0', 'o'] ∨ t.take 2 = ['0', 'O'] then
    let ds := t.drop 2
    if ds ≠ [] ∧ ds.all (fun c => 48 ≤ c.toNat && c.toNat ≤ 55) then
      some (ds.foldl (fun acc c => acc * 8 + (c.toNat - 48)) 0)
    else none
  else if t.take 2 = ['0', 'b'] ∨ t.take 2 = ['0', 'B'] then
    let ds := t.drop 2
    if ds ≠ [] ∧ ds.all (fun c => c = '0' ∨ c = '1') then
      some (ds.foldl (fun acc c => acc * 2 + (c.toNat - 48)) 0)
    else none
  else
    let signed : Int × List Char :=
      if t.head? = some '-' then (-1, t.tail)
      else if t.head? = some '+' then (1, t.tail)
      else (1, t)
    if signed.2 ≠ [] ∧ signed.2.all isDigitChar then
      some (signed.1 * decDigitsVal signed.2)
    else none

/-! ## PriceNormalizer (src/unnamed/part_003) -/

/-- Result record of the price normalizer. -/
structure NormalizedPrice where
  amountUsdcCents : Nat
  priceUnavailable : Bool
deriving DecidableEq

/-- Decimals table `ASSET_DECIMALS` from the source. -/
def ASSET_DECIMALS : List (String × Nat) := [("USDC", 6), ("ETH", 18), ("SOL", 9)]

/-- Fallback USD-per-unit rate table `FALLBACK_USDC_RATE` from the source. -/
def FALLBACK_USDC_RATE : List (String × Nat) := [("ETH", 3000), ("SOL", 150)]

/-- `Number.MAX_SAFE_INTEGER`. -/
def MAX_SAFE_INTEGER : Nat := 9007199254740991

/-- `parseRawAmount`: parse with `BigInt`, reject negative values.  The
surviving value is a natural number. -/
def parseRawAmount (rawAmount : String) : Option Nat :=
  match jsBigIntOfString rawAmount with
  | none => none
  | some v => if v < 0 then none else some v.toNat

/-- `toSafeNumber`: values above `Number.MAX_SAFE_INTEGER` are rejected. -/
def toSafeNumber (value : Nat) : Option Nat :=
  if value > MAX_SAFE_INTEGER then none else some value

/-- `normalizeAsset`: trim and upper-case the asset symbol. -/
def normalizeAsset (rawAsset : String) : String :=
  jsToUpper (jsTrim rawAsset)

/-- `convertToUsdcCents`: USDC-family assets are scaled by `100 / 10^6`;
other assets need both a fallback rate and a decimals entry. -/
def convertToUsdcCents (rawAmount : Nat) (asset : String) : Option Nat :=
  if asset = "USDC" ∨ asset = "USDC.E" then
    some (rawAmount * 100 / 10 ^ 6)
  else
    match FALLBACK_USDC_RATE.lookup asset, ASSET_DECIMALS.lookup asset with
    | some fallbackRate, some decimals =>
      some (rawAmount * fallbackRate * 100 / 10 ^ decimals)
    | _, _ => none

/-- `normalizeToUsdcCents` from `src/unnamed/part_003`.  The `network`
argument is informational only (`void network` in the source). -/
def normalizeToUsdcCents (rawAmount rawAsset network : String) : NormalizedPrice :=
  let _ := network
  match parseRawAmount rawAmount with
  | none => ⟨0, true⟩
  | some parsedAmount =>
    match convertToUsdcCents parsedAmount (normalizeAsset rawAsset) with
    | none => ⟨0, true⟩
    | some rawCents =>
      match toSafeNumber rawCents with
      | none => ⟨0, true⟩
      | some amountUsdcCents => ⟨amountUsdcCents, false⟩

/-! ### Lemmas about digit strings -/

theorem isWsChar_eq_false_of_digit {c : Char} (h : isDigitChar c = true) :
    isWsChar c = false := by
  simp only [isDigitChar, Bool.and_eq_true, decide_eq_true_eq] at h
  simp only [isWsChar, Bool.or_eq_false_iff, decide_eq_false_iff_not]
  omega

theorem dropWhile_eq_self_of_not {p : Char → Bool} :
    ∀ {cs : List Char}, (∀ c ∈ cs, p c = false) → cs.dropWhile p = cs
  | [], _ => rfl
  | c :: rest, h => by
    simp [List.dropWhile, h c (by simp)]

theorem jsTrimList_of_all_digits {cs : List Char} (h : cs.all isDigitChar = true) :
    jsTrimList cs = cs := by
  have hnotws : ∀ c ∈ cs, isWsChar c = false := by
    intro c hc
    exact isWsChar_eq_false_of_digit (by simpa using List.all_eq_true.mp h c hc)
  unfold jsTrimList
  rw [dropWhile_eq_self_of_not hnotws]
  rw [dropWhile_eq_self_of_not (by intro c hc; exact hnotws c (by simpa using hc))]
  exact List.reverse_reverse cs

theorem take2_ne_zero_prefix {cs : List Char} (h : cs.all isDigitChar = true)
    {c : Char} (hc : isDigitChar c = false) : ¬ cs.take 2 = ['0', c] := by
  intro heq
  match cs, heq with
  | a :: b :: rest, heq =>
    simp [List.take] at heq
    have hb : isDigitChar b = true := by
      simpa using List.all_eq_true.mp h b (by simp)
    rw [heq.2] at hb
    simp [hb] at hc

theorem head_not_sign_of_digits {cs : List Char} (hne : cs ≠ [])
    (h : cs.all isDigitChar = true) {c : Char} (hc : isDigitChar c = false) :
    ¬ cs.head? = some c := by
  intro heq
  match cs, hne with
  | a :: rest, _ =>
    simp at heq
    have ha : isDigitChar a = true := by
      simpa using List.all_eq_true.mp h a (by simp)
    rw [heq] at ha
    simp [ha] at hc

theorem jsBigIntOfString_digits {s : String} (hne : s.data ≠ [])
    (h : s.data.all isDigitChar = true) :
    jsBigIntOfString s = some (decDigitsVal s.data) := by
  unfold jsBigIntOfString
  rw [jsTrimList_of_all_digits h]
  rw [if_neg hne]
  rw [if_neg (by
    rintro (h' | h')
    · exact take2_ne_zero_prefix h (by decide) h'
    · exact take2_ne_zero_prefix h (by decide) h')]
  rw [if_neg (by
    rintro (h' | h')
    · exact take2_ne_zero_prefix h (by decide) h'
    · exact take2_ne_zero_prefix h (by decide) h')]
  rw [if_neg (by
    rintro (h' | h')
    · exact take2_ne_zero_prefix h (by decide) h'
    · exact take2_ne_zero_prefix h (by decide) h')]
  rw [if_neg (head_not_sign_of_digits hne h (by decide))]
  rw [if_neg (head_not_sign_of_digits hne h (by decide))]
  rw [if_pos ⟨hne, h⟩]
  simp

/-! ### Claim C6 -/

/-- C6 counterexample: the claim asserts
`normalizeToUsdcCents r "USDC" net = {floor(r/10000), false}` for all
nonnegative integer strings `r`, but for
`r = "90071992547409920000"` the quotient `2^53` exceeds
`Number.MAX_SAFE_INTEGER`, so the code returns `{0, true}` instead of
`{9007199254740992, false}`. -/
theorem C6_claim_counterexample :
    normalizeToUsdcCents "90071992547409920000" "USDC" "base" = ⟨0, true⟩ ∧
    decDigitsVal "90071992547409920000".data / 10000 = 9007199254740992 ∧
    normalizeToUsdcCents "90071992547409920000" "USDC" "base" ≠
      ⟨decDigitsVal "90071992547409920000".data / 10000, false⟩ := by
  refine ⟨by decide, by decide, by decide⟩

/-- C6 (amended): for every nonnegative integer string `r` whose value in
USDC cents, `floor(r/10000)`, does not exceed `Number.MAX_SAFE_INTEGER`,
`normalizeToUsdcCents r "USDC" network = {floor(r/10000), false}` for any
network; and for any asset symbol that does not normalize to `USDC`/`USDC.E`
and is missing from the decimals or fallback-rate tables, the result is
`{0, true}` for every amount string. -/
theorem C6_normalizeToUsdcCents_spec :
    (∀ s network : String, s.data ≠ [] → s.data.all isDigitChar = true →
      decDigitsVal s.data / 10000 ≤ MAX_SAFE_INTEGER →
      normalizeToUsdcCents s "USDC" network =
        ⟨decDigitsVal s.data / 10000, false⟩) ∧
    (∀ amount asset network : String,
      normalizeAsset asset ≠ "USDC" → normalizeAsset asset ≠ "USDC.E" →
      (FALLBACK_USDC_RATE.lookup (normalizeAsset asset) = none ∨
        ASSET_DECIMALS.lookup (normalizeAsset asset) = none) →
      normalizeToUsdcCents amount asset network = ⟨0, true⟩) := by
  constructor
  · intro s network hne hall hbound
    have hparse : parseRawAmount s = some (decDigitsVal s.data) := by
      unfold parseRawAmount
      rw [jsBigIntOfString_digits hne hall]
      simp
    have husdc : normalizeAsset "USDC" = "USDC" := by decide
    have hdiv : decDigitsVal s.data * 100 / 10 ^ 6 = decDigitsVal s.data / 10000 := by
      have h1 : (10 : Nat) ^ 6 = 10000 * 100 := by norm_num
      rw [h1]
      exact Nat.mul_div_mul_right _ _ (by norm_num)
    have hconv : convertToUsdcCents (decDigitsVal s.data) (normalizeAsset "USDC") =
        some (decDigitsVal s.data / 10000) := by
      rw [husdc]
      unfold convertToUsdcCents
      rw [if_pos (Or.inl rfl), hdiv]
    have hsafe : toSafeNumber (decDigitsVal s.data / 10000) =
        some (decDigitsVal s.data / 10000) := by
      unfold toSafeNumber
      rw [if_neg (by omega)]
    unfold normalizeToUsdcCents
    simp [hparse, hconv, hsafe]
  · intro amount asset network h1 h2 h3
    unfold normalizeToUsdcCents
    cases hp : parseRawAmount amount with
    | none => simp [hp]
    | some n =>
      have hconv : convertToUsdcCents n (normalizeAsset asset) = none := by
        unfold convertToUsdcCents
        rw [if_neg (by rintro (h' | h') <;> [exact h1 h'; exact h2 h'])]
        cases hf : FALLBACK_USDC_RATE.lookup (normalizeAsset asset) with
        | none => rfl
        | some rate =>
          cases hd : ASSET_DECIMALS.lookup (normalizeAsset asset) with
          | none => rfl
          | some decimals =>
            rcases h3 with h3 | h3
            · rw [hf] at h3; exact absurd h3 (by simp)
            · rw [hd] at h3; exact absurd h3 (by simp)
      simp [hp, hconv]

/-- C6 witness: the amended theorem applied at the spec's own example
`normalize("1000000","USDC","base") = {100, false}` and at the unknown asset
`DOGE`. -/
theorem C6_normalizeToUsdcCents_spec_witness :
    normalizeToUsdcCents "1000000" "USDC" "base" = ⟨100, false⟩ ∧
    normalizeToUsdcCents "1000000" "DOGE" "dogechain" = ⟨0, true⟩ := by
  constructor
  · have h := C6_normalizeToUsdcCents_spec.1 "1000000" "base"
      (by decide) (by decide) (by decide)
    have hv : decDigitsVal "1000000".data / 10000 = 100 := by decide
    rw [hv] at h
    exact h
  · exact C6_normalizeToUsdcCents_spec.2 "1000000" "DOGE" "dogechain"
      (by decide) (by decide) (Or.inl (by decide))

/-! ## Provider names and the invoke policy
(src/src/lib/providers/types.ts, src/src/lib/providers/invoke-policy.ts) -/

/-- The four registered provider names (`providerNames` in types.ts). -/
inductive ProviderName
  | coinbase
  | thirdweb
  | dexter
  | payai
deriving DecidableEq

/-- `ProviderNameSchema.safeParse` on a string. -/
def parseProviderName (s : String) : Option ProviderName :=
  if s = "coinbase" then some .coinbase
  else if s = "thirdweb" then some .thirdweb
  else if s = "dexter" then some .dexter
  else if s = "payai" then some .payai
  else none

/-- One provider's invoke policy record. -/
structure ProviderInvokePolicy where
  directInvokeEnabled : Bool
  message : Option String

/-- The `providerInvokePolicies` table from invoke-policy.ts. -/
def providerInvokePolicies : ProviderName → ProviderInvokePolicy
  | .coinbase => ⟨true, none⟩
  | .dexter => ⟨true, none⟩
  | .payai => ⟨true, none⟩
  | .thirdweb =>
    ⟨false,
      some "thirdweb getById currently depends on prior discovery search cache and can miss ids due to pagination; direct invoke is disabled until adapter lookup is stable without search."⟩

/-- `getProviderInvokeBlockMessage` from invoke-policy.ts. -/
def getProviderInvokeBlockMessage (provider : ProviderName) : Option String :=
  let policy := providerInvokePolicies provider
  if policy.directInvokeEnabled = false then
    some (policy.message.getD
      "Provider getById is not stable for direct invoke in current MVP.")
  else
    none

/-! ## Invoke route handler (src/src/app/api/store/invoke/handler.ts) -/

/-- Model of `String.prototype.indexOf(":")`: index of the first colon, `-1`
when absent. -/
def jsIndexOfColon (cs : List Char) : Int :=
  match cs.findIdx? (· = ':') with
  | some i => (i : Int)
  | none => -1

/-- `parseProviderFromId` from the invoke handler: trim, find the `:`
delimiter (it must be neither leading, absent, nor trailing), parse the
provider prefix; the lookup id is the whole trimmed id. -/
def parseProviderFromId (id : String) : Option (ProviderName × String) :=
  let trimmed := jsTrim id
  let delimiterIndex := jsIndexOfColon trimmed.data
  if delimiterIndex ≤ 0 ∨ delimiterIndex = (trimmed.data.length : Int) - 1 then
    none
  else
    match parseProviderName (String.mk (trimmed.data.take delimiterIndex.toNat)) with
    | none => none
    | some provider => some (provider, trimmed)

/-- Endpoint record of an agent as read by the invoke handler. -/
structure AgentEndpoint where
  url : String
  method : String

/-- Agent fields the invoke handler reads. -/
structure AgentRec where
  id : String
  endpoint : AgentEndpoint

/-- Outcome of an adapter `getById` call: a thrown error, `null`, or an
agent. -/
inductive GetByIdOutcome
  | throws
  | notFound
  | found (agent : AgentRec)

/-- Invoke-route response: HTTP status plus the `error` field of the JSON
payload. -/
structure InvokeStubResponse where
  status : Nat
  error : String
deriving DecidableEq

/-- The invoke route `createInvokeRouteHandler` from
`src/src/app/api/store/invoke/handler.ts`: parse the body (modelled as
`none` when `request.json()` throws or the zod schema rejects a non-string
id), require a nonempty trimmed id, parse the provider prefix, apply the
invoke-policy gate, then consult the adapter's `getById` (an oracle); a
found agent yields the 501 `invoke_not_implemented_yet` response.  The
default adapter map is total over `ProviderName`, so the "adapter not
configured" 500 branch is unreachable and omitted. -/
def invokeRouteStub (getById : ProviderName → String → GetByIdOutcome)
    (body : Option String) : InvokeStubResponse :=
  match body with
  | none => ⟨422, "Invalid request payload"⟩
  | some rawId =>
    if (jsTrim rawId).data = [] then ⟨422, "Invalid request payload"⟩
    else
      match parseProviderFromId rawId with
      | none => ⟨422, "Invalid id format, expected provider:originalId"⟩
      | some (provider, lookupId) =>
        match getProviderInvokeBlockMessage provider with
        | some _ => ⟨422, "provider_not_invokable_yet"⟩
        | none =>
          match getById provider lookupId with
          | .throws => ⟨500, "Failed to load agent by id"⟩
          | .notFound => ⟨404, "Agent not found"⟩
          | .found _ => ⟨501, "invoke_not_implemented_yet"⟩

theorem parseProviderFromId_trim_ne {id : String} {pr : ProviderName × String}
    (h : parseProviderFromId id = some pr) : ¬ (jsTrim id).data = [] := by
  intro h0
  simp [parseProviderFromId, h0, jsIndexOfColon] at h

/-! ### Claim C10 -/

/-- C10: an invoke request whose id carries the provider prefix `thirdweb`
is answered 422 `provider_not_invokable_yet`; the response does not depend on
the `getById` oracle (it is produced before the adapter is consulted), and
`getProviderInvokeBlockMessage` is non-null exactly for `thirdweb`. -/
theorem C10_thirdweb_invoke_blocked :
    (∀ (id : String) (g₁ g₂ : ProviderName → String → GetByIdOutcome),
      (parseProviderFromId id).map Prod.fst = some ProviderName.thirdweb →
      invokeRouteStub g₁ (some id) = ⟨422, "provider_not_invokable_yet"⟩ ∧
      invokeRouteStub g₁ (some id) = invokeRouteStub g₂ (some id)) ∧
    getProviderInvokeBlockMessage .thirdweb ≠ none ∧
    getProviderInvokeBlockMessage .coinbase = none ∧
    getProviderInvokeBlockMessage .dexter = none ∧
    getProviderInvokeBlockMessage .payai = none := by
  refine ⟨?_, by decide, by decide, by decide, by decide⟩
  intro id g₁ g₂ hmap
  cases hpp : parseProviderFromId id with
  | none => rw [hpp] at hmap; simp at hmap
  | some pr =>
    rw [hpp] at hmap
    simp at hmap
    have htrim := parseProviderFromId_trim_ne hpp
    obtain ⟨provider, lookupId⟩ := pr
    simp at hmap
    subst hmap
    constructor <;>
      simp [invokeRouteStub, htrim, hpp, getProviderInvokeBlockMessage,
        providerInvokePolicies]

/-- C10 witness: the theorem applied at the concrete id `thirdweb:agent-1`
and two different `getById` oracles. -/
theorem C10_thirdweb_invoke_blocked_witness :
    invokeRouteStub (fun _ _ => .notFound) (some "thirdweb:agent-1") =
      ⟨422, "provider_not_invokable_yet"⟩ ∧
    invokeRouteStub (fun _ _ => .notFound) (some "thirdweb:agent-1") =
      invokeRouteStub (fun _ _ => .throws) (some "thirdweb:agent-1") :=
  C10_thirdweb_invoke_blocked.1 "thirdweb:agent-1" _ _ (by decide)

/-! ## AvailabilityProbe (src/src/lib/availability-checker.ts) -/

/-- Outcome of one `fetch` call: an HTTP response with a status code, or a
rejection (network error, or abort by the timeout controller). -/
inductive FetchOutcome
  | ok (status : Nat)
  | err
deriving DecidableEq

/-- The two request methods the availability checker issues. -/
inductive ProbeMethod
  | head
  | get
deriving DecidableEq

/-- Responses the upstream would give to a HEAD and to a GET probe of the
checked URL. -/
structure ProbeWorld where
  headOutcome : FetchOutcome
  getOutcome : FetchOutcome

/-- `FALLBACK_TO_GET_STATUS` from the source. -/
def FALLBACK_TO_GET_STATUS : List Nat := [403, 405]

/-- `probeEndpoint`: HEAD first; exactly on a 403/405 HEAD response a single
GET fallback.  Returns the final fetch outcome together with the list of
requests issued; a HEAD rejection propagates, so no GET is issued. -/
def probeEndpoint (w : ProbeWorld) : FetchOutcome × List ProbeMethod :=
  match w.headOutcome with
  | .err => (.err, [.head])
  | .ok status =>
    if status ∈ FALLBACK_TO_GET_STATUS then (w.getOutcome, [.head, .get])
    else (.ok status, [.head])

/-- Availability result as produced by `checkEndpoint`; the wall-clock fields
`latencyMs` and `lastChecked` are outside the embedding. -/
structure CheckEndpointResult where
  isOnline : Bool
  statusCode : Option Nat
deriving DecidableEq

/-- `checkEndpoint` from availability-checker.ts: any received response is
online with its status; any rejection (network error or timeout abort) is
caught and reported offline with a null status — the function never
throws. -/
def checkEndpoint (w : ProbeWorld) : CheckEndpointResult × List ProbeMethod :=
  match probeEndpoint w with
  | (.ok status, requests) => (⟨true, some status⟩, requests)
  | (.err, requests) => (⟨false, none⟩, requests)

/-! ### Claim C7 -/

/-- C7: `checkEndpoint` always issues a HEAD request first; it issues exactly
one follow-up GET precisely when the HEAD response status is 403 or 405; any
received response yields `{isOnline: true, statusCode: status}`; a network
error or timeout yields `{isOnline: false, statusCode: null}`. -/
theorem C7_checkEndpoint_spec :
    ∀ w : ProbeWorld,
      (checkEndpoint w).2.take 1 = [.head] ∧
      ((checkEndpoint w).2 = [.head, .get] ↔
        ∃ s, w.headOutcome = .ok s ∧ (s = 403 ∨ s = 405)) ∧
      ((checkEndpoint w).2 = [.head] ∨ (checkEndpoint w).2 = [.head, .get]) ∧
      (∀ s, (probeEndpoint w).1 = .ok s →
        (checkEndpoint w).1 = ⟨true, some s⟩) ∧
      ((probeEndpoint w).1 = .err → (checkEndpoint w).1 = ⟨false, none⟩) := by
  intro w
  obtain ⟨headO, getO⟩ := w
  cases headO with
  | err =>
    refine ⟨rfl, by simp [checkEndpoint, probeEndpoint], Or.inl rfl, ?_, ?_⟩
    · intro s hs
      simp [probeEndpoint] at hs
    · intro _
      rfl
  | ok status =>
    by_cases hs : status ∈ FALLBACK_TO_GET_STATUS
    · have hcases : status = 403 ∨ status = 405 := by
        simpa [FALLBACK_TO_GET_STATUS] using hs
      cases getO with
      | err =>
        refine ⟨?_, ?_, ?_, ?_, ?_⟩ <;>
          simp [checkEndpoint, probeEndpoint, hs]
        exact hcases
      | ok gstatus =>
        refine ⟨?_, ?_, ?_, ?_, ?_⟩ <;>
          simp [checkEndpoint, probeEndpoint, hs]
        exact hcases
    · have hcases : ¬ (status = 403 ∨ status = 405) := by
        simpa [FALLBACK_TO_GET_STATUS] using hs
      refine ⟨?_, ?_, ?_, ?_, ?_⟩ <;>
        simp [checkEndpoint, probeEndpoint, hs]
      exact not_or.mp hcases

/-- C7 witness: the theorem applied at concrete probe worlds — a 403 HEAD
falling back to a 200 GET, and a rejected HEAD. -/
theorem C7_checkEndpoint_spec_witness :
    (checkEndpoint ⟨.ok 403, .ok 200⟩).2 = [.head, .get] ∧
    (checkEndpoint ⟨.ok 403, .ok 200⟩).1 = ⟨true, some 200⟩ ∧
    (checkEndpoint ⟨.err, .ok 200⟩).1 = ⟨false, none⟩ :=
  ⟨(C7_checkEndpoint_spec ⟨.ok 403, .ok 200⟩).2.1.mpr ⟨403, rfl, Or.inl rfl⟩,
   (C7_checkEndpoint_spec ⟨.ok 403, .ok 200⟩).2.2.2.1 200 (by decide),
   (C7_checkEndpoint_spec ⟨.err, .ok 200⟩).2.2.2.2 (by decide)⟩

/-! ## SSRF guard of the availability route (src/unnamed/part_017) -/

/-- Model of `str.split(sep)` for a single-character separator, keeping empty
parts (JavaScript `String.prototype.split` semantics). -/
def splitOnChar (sep : Char) : List Char → List (List Char)
  | [] => [[]]
  | c :: rest =>
    let r := splitOnChar sep rest
    if c = sep then [] :: r
    else
      match r with
      | [] => [[c]]
      | h :: t => (c :: h) :: t

/-- ASCII lower-casing of one character (model of `toLowerCase` on the ASCII
range, which covers hostnames). -/
def jsToLowerChar (c : Char) : Char :=
  if 65 ≤ c.toNat ∧ c.toNat ≤ 90 then Char.ofNat (c.toNat + 32) else c

/-- Model of `String.prototype.toLowerCase` (ASCII range). -/
def jsToLower (s : String) : String :=
  String.mk (s.data.map jsToLowerChar)

/-- Does `cs` start with `pre` (model of `String.prototype.startsWith`). -/
def listStartsWith (pre cs : List Char) : Bool :=
  decide (cs.take pre.length = pre)

/-- Does `cs` end with `suf` (model of `String.prototype.endsWith`). -/
def listEndsWith (suf cs : List Char) : Bool :=
  listStartsWith suf.reverse cs.reverse

/-- Model of JavaScript `Number()` on a hostname label followed by the
`Number.isInteger` / range gate of the source: the empty string is `0`, a
digit string is its decimal value, anything else is `NaN` (`none`).  The
guard only reaches this after `isIP` classified the hostname (or the
IPv4-mapped tail of an IPv6 literal) — on that domain this model coincides
with `Number`. -/
def jsNumberNat (cs : List Char) : Option Nat :=
  if cs = [] then some 0
  else if cs.all isDigitChar then some (decDigitsVal cs) else none

/-- `isPrivateIpv4` from src/unnamed/part_017: split on dots, require four
integer octets in `0..255`, then test the private ranges 10/8, 127/8, 0/8,
169.254/16, 172.16/12, 192.168/16. -/
def isPrivateIpv4 (hostname : String) : Bool :=
  match (splitOnChar '.' hostname.data).map jsNumberNat with
  | [some first, some second, some third, some fourth] =>
    if first > 255 ∨ second > 255 ∨ third > 255 ∨ fourth > 255 then false
    else if first = 10 ∨ first = 127 ∨ first = 0 then true
    else if first = 169 ∧ second = 254 then true
    else if first = 172 ∧ 16 ≤ second ∧ second ≤ 31 then true
    else decide (first = 192 ∧ second = 168)
  | _ => false

/-- `isPrivateIpv6` from src/unnamed/part_017: literal string comparisons for
loopback and the unspecified address, textual prefixes `fc`/`fd` for
unique-local, the four textual prefixes `fe80`/`fe90`/`fea0`/`feb0` for
link-local, and the `::ffff:` IPv4-mapped form. -/
def isPrivateIpv6 (hostname : String) : Bool :=
  let normalized := jsToLower hostname
  if normalized = "::1" ∨ normalized = "0:0:0:0:0:0:0:1" ∨ normalized = "::" then
    true
  else if listStartsWith "fc".data normalized.data ∨
      listStartsWith "fd".data normalized.data then
    true
  else if listStartsWith "fe80".data normalized.data ∨
      listStartsWith "fe90".data normalized.data ∨
      listStartsWith "fea0".data normalized.data ∨
      listStartsWith "feb0".data normalized.data then
    true
  else if listStartsWith "::ffff:".data normalized.data then
    isPrivateIpv4 (String.mk (normalized.data.drop 7))
  else
    false

/-- Strict dotted-quad octet as accepted by `node:net` `isIP`: one to three
decimal digits, no leading zero, value at most 255. -/
def isIpv4Octet (cs : List Char) : Bool :=
  !cs.isEmpty && cs.all isDigitChar && decide (cs.length ≤ 3) &&
  (decide (cs.length = 1) || decide (cs.head? ≠ some '0')) &&
  decide (decDigitsVal cs ≤ 255)

/-- Dotted-quad IPv4 literal test of `node:net` `isIP`. -/
def isIpv4Literal (cs : List Char) : Bool :=
  match splitOnChar '.' cs with
  | [a, b, c, d] => isIpv4Octet a && isIpv4Octet b && isIpv4Octet c && isIpv4Octet d
  | _ => false

/-- One to four hexadecimal digits (an IPv6 group). -/
def isHexGroup (cs : List Char) : Bool :=
  !cs.isEmpty && decide (cs.length ≤ 4) && cs.all isHexChar

/-- Number of 16-bit units of a run of IPv6 groups whose final group may be an
embedded IPv4 literal (which counts as two units); `none` when some group is
invalid. -/
def ipv6TailUnits (gs : List (List Char)) : Option Nat :=
  match gs.getLast? with
  | none => some 0
  | some g =>
    if isIpv4Literal g then
      if gs.dropLast.all isHexGroup then some (gs.length + 1) else none
    else if gs.all isHexGroup then some gs.length
    else none

/-- IPv6 literal test of `node:net` `isIP`: eight groups, or a single `::`
compression covering at least one zero group, with an optional embedded
IPv4 tail; no zone suffix. -/
def isIpv6Literal (cs : List Char) : Bool :=
  if cs = "::".data then true
  else
    let gs := splitOnChar ':' cs
    let empties := gs.countP (· = [])
    if empties = 0 then
      match ipv6TailUnits gs with
      | some u => decide (u = 8)
      | none => false
    else if gs.length ≥ 3 ∧ gs.take 2 = [[], []] then
      let rest := gs.drop 2
      if rest.countP (· = []) = 0 then
        match ipv6TailUnits rest with
        | some u => decide (u ≤ 7)
        | none => false
      else false
    else if gs.length ≥ 3 ∧ gs.reverse.take 2 = [[], []] then
      let front := gs.dropLast.dropLast
      if front.countP (· = []) = 0 then
        front.all isHexGroup && decide (front.length ≤ 7)
      else false
    else if empties = 1 ∧ gs.head? ≠ some [] ∧ gs.getLast? ≠ some [] then
      let front := gs.takeWhile (· ≠ [])
      let back := gs.drop (front.length + 1)
      front.all isHexGroup &&
        match ipv6TailUnits back with
        | some u => decide (front.length + u ≤ 7)
        | none => false
    else false

/-- Model of `isIP` from `node:net`: `4` for an IPv4 literal, `6` for an IPv6
literal, `0` otherwise. -/
def isIP (s : String) : Nat :=
  if isIpv4Literal s.data then 4
  else if isIpv6Literal s.data then 6
  else 0

/-- `isUnsafeHostname` from src/unnamed/part_017. -/
def isUnsafeHostname (hostname : String) : Bool :=
  let normalized := jsToLower hostname
  if normalized = "localhost" ∨
      listEndsWith ".localhost".data normalized.data ∨
      listEndsWith ".local".data normalized.data then
    true
  else
    let ipVersion := isIP normalized
    if ipVersion = 4 then isPrivateIpv4 normalized
    else if ipVersion = 6 then isPrivateIpv6 normalized
    else false

/-- Components of a WHATWG-parsed URL as read by `validateEndpointUrl`:
`protocol` keeps its trailing colon, and the `hostname` getter serializes an
IPv6 host inside its surrounding brackets (WHATWG URL host serializer). -/
structure ParsedUrl where
  protocol : String
  username : String
  password : String
  hostname : String

/-- `validateEndpointUrl` from src/unnamed/part_017, acting on the outcome of
`new URL(url)` (`none` models a parse failure).  Returns the rejection
message, or `none` when the endpoint is accepted. -/
def validateEndpointUrl (parsed : Option ParsedUrl) : Option String :=
  match parsed with
  | none => some "Invalid agent endpoint URL"
  | some p =>
    if p.protocol ≠ "http:" ∧ p.protocol ≠ "https:" then
      some "Endpoint protocol must be http or https"
    else if p.username.data.length > 0 ∨ p.password.data.length > 0 then
      some "Endpoint URL must not include credentials"
    else if isUnsafeHostname p.hostname then
      some "Endpoint URL points to localhost or private network"
    else
      none

/-- WHATWG parse of `http://[::1]:8080/run`: scheme `http`, no credentials,
and hostname `[::1]` — the host serializer keeps the brackets of an IPv6
host. -/
def parsedIpv6LoopbackUrl : ParsedUrl := ⟨"http:", "", "", "[::1]"⟩

/-- WHATWG parse of `http://localhost/x`. -/
def parsedLocalhostUrl : ParsedUrl := ⟨"http:", "", "", "localhost"⟩

/-- WHATWG parse of `http://127.0.0.1/x`. -/
def parsedLoopbackIpv4Url : ParsedUrl := ⟨"http:", "", "", "127.0.0.1"⟩

/-- WHATWG parse of `http://169.254.169.254/x`. -/
def parsedMetadataIpv4Url : ParsedUrl := ⟨"http:", "", "", "169.254.169.254"⟩

/-- WHATWG parse of `https://api.example.com/x`. -/
def parsedPublicApiUrl : ParsedUrl := ⟨"https:", "", "", "api.example.com"⟩

/-! ### Claim C2 -/

/-- C2 (code bug): `validateEndpointUrl` accepts `http://[::1]:8080/run`.
The WHATWG `hostname` of an IPv6 host keeps its brackets (`"[::1]"`), so
`isIP` returns `0` and the IPv6 branch of `isUnsafeHostname` never runs; the
loopback literal the branch was written for (`"::1"`, bare) would have been
recognised.  In addition, even on a bare hostname the link-local test only
matches the four textual prefixes `fe80`/`fe90`/`fea0`/`feb0`, so the
`fe80::/10` member `fe81::1` is not classified private.  The IPv4 and
name-based parts of the guard behave as claimed on the spec's examples. -/
theorem C2_ssrf_guard_ipv6_bug :
    validateEndpointUrl (some parsedIpv6LoopbackUrl) = none ∧
    isUnsafeHostname "[::1]" = false ∧
    isPrivateIpv6 "::1" = true ∧
    isPrivateIpv6 "fe81::1" = false ∧
    validateEndpointUrl (some parsedLoopbackIpv4Url) =
      some "Endpoint URL points to localhost or private network" ∧
    validateEndpointUrl (some parsedLocalhostUrl) =
      some "Endpoint URL points to localhost or private network" ∧
    validateEndpointUrl (some parsedMetadataIpv4Url) =
      some "Endpoint URL points to localhost or private network" ∧
    validateEndpointUrl (some parsedPublicApiUrl) = none := by
  decide

/-! ## AdapterRegistry (bundled in src/src/lib/providers/coinbase-adapter.test.ts) -/

/-- Pricing fields of `UnifiedAgent` read by the registry. -/
structure PricingR where
  amountUsdcCents : Nat
deriving DecidableEq

/-- Availability fields of `UnifiedAgent` read by the registry. -/
structure AvailabilityR where
  isOnline : Bool
  latencyMs : Option Nat
deriving DecidableEq

/-- Projection of `UnifiedAgent` to the fields the registry's deduplication
and sorting read (`id`, `pricing.amountUsdcCents`, `availability.isOnline`,
`availability.latencyMs`); the remaining record fields are carried through
untouched by `searchAll` and do not influence it. -/
structure UAgent where
  id : String
  pricing : PricingR
  availability : AvailabilityR
deriving DecidableEq

/-- `ProviderError.type`. -/
inductive ProviderErrorType
  | timeout
  | adapterError
deriving DecidableEq

/-- `ProviderError` (the `cause` field carries the reason object and is not
modelled). -/
structure ProviderErrorR where
  provider : ProviderName
  etype : ProviderErrorType
  message : String
deriving DecidableEq

/-- Outcome of one adapter's `search` promise: it resolves with agents,
rejects with a thrown `Error`, or never settles. -/
inductive SearchOutcome
  | success (agents : List UAgent)
  | failure (message : String)
  | hang
deriving DecidableEq

/-- One registered adapter, with the behaviour its `search` call would
exhibit for the query at hand. -/
structure AdapterSim where
  provider : ProviderName
  outcome : SearchOutcome
deriving DecidableEq

/-- `DEFAULT_ADAPTER_TIMEOUT_MS`. -/
def DEFAULT_ADAPTER_TIMEOUT_MS : Nat := 5000

/-- String form of a provider name. -/
def providerString : ProviderName → String
  | .coinbase => "coinbase"
  | .thirdweb => "thirdweb"
  | .dexter => "dexter"
  | .payai => "payai"

/-- Message of `AdapterTimeoutError`. -/
def timeoutMessage (provider : ProviderName) (timeoutMs : Nat) : String :=
  "Adapter \"" ++ providerString provider ++ "\" timed out after " ++
    toString timeoutMs ++ "ms"

/-- Rejection reason of a settled search promise: the `AdapterTimeoutError`
planted by `withTimeout`, or the adapter's own thrown `Error`. -/
inductive RejectReason
  | timeoutErr (provider : ProviderName) (timeoutMs : Nat)
  | thrown (message : String)

/-- A `Promise.allSettled` entry. -/
inductive SettledResult
  | fulfilled (agents : List UAgent)
  | rejected (reason : RejectReason)

/-- Joint semantics of `withTimeout` and `Promise.allSettled`: a search that
resolves is fulfilled, one that throws rejects with its error, and one that
never settles is rejected by the timeout with an `AdapterTimeoutError`. -/
def settleSearch (timeoutMs : Nat) (a : AdapterSim) : SettledResult :=
  match a.outcome with
  | .success xs => .fulfilled xs
  | .failure m => .rejected (.thrown m)
  | .hang => .rejected (.timeoutErr a.provider timeoutMs)

/-- `toProviderError`: an `AdapterTimeoutError` yields type `timeout`, any
other `Error` yields type `adapter_error` with its message. -/
def toProviderError (provider : ProviderName) : RejectReason → ProviderErrorR
  | .timeoutErr p t => ⟨provider, .timeout, timeoutMessage p t⟩
  | .thrown m => ⟨provider, .adapterError, m⟩

/-- One step of the deduplication loop: an agent whose id was already seen is
dropped, otherwise it is appended. -/
def insertAgent (acc : List UAgent) (a : UAgent) : List UAgent :=
  if acc.any (fun b => b.id = a.id) then acc else acc ++ [a]

/-- The deduplication loop over one fulfilled adapter's agents. -/
def insertAgents (acc : List UAgent) (xs : List UAgent) : List UAgent :=
  xs.foldl insertAgent acc

/-- One iteration of the `settledResults.forEach` loop of `searchAll`:
a rejected entry is pushed onto `errors`, a fulfilled entry feeds the
deduplication map (whose `values()` iteration order is insertion order). -/
def collectStep (st : List UAgent × List ProviderErrorR)
    (e : ProviderName × SettledResult) : List UAgent × List ProviderErrorR :=
  match e.2 with
  | .rejected r => (st.1, st.2 ++ [toProviderError e.1 r])
  | .fulfilled xs => (insertAgents st.1 xs, st.2)

/-- The `settledResults.forEach` loop of `searchAll`. -/
def collectSettled (entries : List (ProviderName × SettledResult)) :
    List UAgent × List ProviderErrorR :=
  entries.foldl collectStep ([], [])

/-- `relevanceIndexFor`: the relevance map assigns each first-seen id its
insertion index; absent ids default to `Number.MAX_SAFE_INTEGER`. -/
def relevanceIndexFor (deduped : List UAgent) (id : String) : Nat :=
  match deduped.findIdx? (fun a => a.id = id) with
  | some i => i
  | none => MAX_SAFE_INTEGER

/-- Order induced by the `sortByPriceAsc` comparator (`comparator l r ≤ 0`):
by ascending cents, ties by relevance rank. -/
def priceAscLe (rank : String → Nat) (l r : UAgent) : Bool :=
  if l.pricing.amountUsdcCents ≠ r.pricing.amountUsdcCents then
    decide (l.pricing.amountUsdcCents ≤ r.pricing.amountUsdcCents)
  else
    decide (rank l.id ≤ rank r.id)

/-- Order induced by the `sortByPriceDesc` comparator. -/
def priceDescLe (rank : String → Nat) (l r : UAgent) : Bool :=
  if l.pricing.amountUsdcCents ≠ r.pricing.amountUsdcCents then
    decide (r.pricing.amountUsdcCents ≤ l.pricing.amountUsdcCents)
  else
    decide (rank l.id ≤ rank r.id)

/-- Latency key used by the availability comparator: a missing `latencyMs` is
replaced by `Number.MAX_SAFE_INTEGER`. -/
def latencyKey (a : UAgent) : Nat :=
  a.availability.latencyMs.getD MAX_SAFE_INTEGER

/-- Order induced by the `sortByAvailability` comparator: online before
offline, then ascending latency key, ties by relevance rank. -/
def availabilityLe (rank : String → Nat) (l r : UAgent) : Bool :=
  if l.availability.isOnline ≠ r.availability.isOnline then
    l.availability.isOnline
  else if latencyKey l ≠ latencyKey r then
    decide (latencyKey l ≤ latencyKey r)
  else
    decide (rank l.id ≤ rank r.id)

/-- Order induced by the default/relevance comparator. -/
def relevanceLe (rank : String → Nat) (l r : UAgent) : Bool :=
  decide (rank l.id ≤ rank r.id)

/-- `SearchFilters.sort`. -/
inductive SortMode
  | priceAsc
  | priceDesc
  | relevance
  | availability
deriving DecidableEq

/-- `sortAgents`: JavaScript's stable `Array.prototype.sort` under a
consistent comparator, modelled by the stable `mergeSort` with the order the
comparator induces; an absent sort takes the default (relevance) branch. -/
def sortAgents (sort : Option SortMode) (rank : String → Nat)
    (agents : List UAgent) : List UAgent :=
  match sort with
  | some .priceAsc => agents.mergeSort (priceAscLe rank)
  | some .priceDesc => agents.mergeSort (priceDescLe rank)
  | some .availability => agents.mergeSort (availabilityLe rank)
  | some .relevance => agents.mergeSort (relevanceLe rank)
  | none => agents.mergeSort (relevanceLe rank)

/-- `selectAdapters`: all adapters when no provider filter is given,
otherwise those whose name is in the filter set. -/
def selectAdapters (providerFilter : Option (List ProviderName))
    (adapters : List AdapterSim) : List AdapterSim :=
  match providerFilter with
  | none => adapters
  | some ps => adapters.filter (fun a => a.provider ∈ ps)

/-- The settled entries of one `searchAll` call. -/
def settledEntries (timeoutMs : Nat) (adapters : List AdapterSim)
    (providerFilter : Option (List ProviderName)) :
    List (ProviderName × SettledResult) :=
  (selectAdapters providerFilter adapters).map
    (fun a => (a.provider, settleSearch timeoutMs a))

/-- The agents one fulfilled entry contributes. -/
def successEntry (e : ProviderName × SettledResult) : List UAgent :=
  match e.2 with
  | .fulfilled xs => xs
  | .rejected _ => []

/-- All agents of fulfilled entries, in settled order. -/
def successAgents (entries : List (ProviderName × SettledResult)) : List UAgent :=
  entries.flatMap successEntry

/-- The provider error one rejected entry contributes. -/
def errEntry (e : ProviderName × SettledResult) : Option ProviderErrorR :=
  match e.2 with
  | .rejected r => some (toProviderError e.1 r)
  | .fulfilled _ => none

/-- The provider errors of rejected entries, in settled order. -/
def errorsOf (entries : List (ProviderName × SettledResult)) : List ProviderErrorR :=
  entries.filterMap errEntry

/-- The deduplicated agent list (insertion order) of one `searchAll` call. -/
def searchAllDeduped (timeoutMs : Nat) (adapters : List AdapterSim)
    (providerFilter : Option (List ProviderName)) : List UAgent :=
  (collectSettled (settledEntries timeoutMs adapters providerFilter)).1

/-- The relevance rank of one `searchAll` call. -/
def searchAllRank (timeoutMs : Nat) (adapters : List AdapterSim)
    (providerFilter : Option (List ProviderName)) (id : String) : Nat :=
  relevanceIndexFor (searchAllDeduped timeoutMs adapters providerFilter) id

/-- `searchAll` response envelope. -/
structure SearchAllResponse where
  results : List UAgent
  errors : List ProviderErrorR

/-- `AdapterRegistry.searchAll`: select adapters, race each search against
the timeout, settle all, collect errors, deduplicate first-seen-wins, sort. -/
def searchAll (timeoutMs : Nat) (adapters : List AdapterSim)
    (providerFilter : Option (List ProviderName)) (sort : Option SortMode) :
    SearchAllResponse :=
  ⟨sortAgents sort
      (relevanceIndexFor (collectSettled (settledEntries timeoutMs adapters providerFilter)).1)
      (collectSettled (settledEntries timeoutMs adapters providerFilter)).1,
    (collectSettled (settledEntries timeoutMs adapters providerFilter)).2⟩

/-! ### Registry lemmas -/

theorem insertAgent_subset {acc : List UAgent} {z : UAgent} (a : UAgent)
    (h : z ∈ acc) : z ∈ insertAgent acc a := by
  unfold insertAgent
  split
  · exact h
  · exact List.mem_append_left _ h

theorem insertAgents_subset {acc : List UAgent} {z : UAgent}
    (xs : List UAgent) (h : z ∈ acc) : z ∈ insertAgents acc xs := by
  induction xs generalizing acc with
  | nil => exact h
  | cons a rest ih => exact ih (insertAgent_subset a h)

theorem insertAgents_covers (acc : List UAgent) (xs : List UAgent) :
    ∀ x ∈ xs, ∃ y ∈ insertAgents acc xs, y.id = x.id := by
  induction xs generalizing acc with
  | nil => intro x hx; cases hx
  | cons a rest ih =>
    intro x hx
    rcases List.mem_cons.mp hx with hx | hx
    · subst hx
      by_cases hany : acc.any (fun b => b.id = x.id)
      · rcases List.any_eq_true.mp hany with ⟨y, hy, hid⟩
        refine ⟨y, ?_, by simpa using hid⟩
        exact insertAgents_subset rest (insertAgent_subset x hy)
      · refine ⟨x, ?_, rfl⟩
        apply insertAgents_subset rest
        unfold insertAgent
        rw [if_neg hany]
        exact List.mem_append_right _ (by simp)
    · exact ih (insertAgent acc a) x hx

theorem foldl_collectStep (entries : List (ProviderName × SettledResult)) :
    ∀ acc, entries.foldl collectStep acc =
      (insertAgents acc.1 (successAgents entries), acc.2 ++ errorsOf entries) := by
  induction entries with
  | nil =>
    intro acc
    simp [successAgents, errorsOf, insertAgents]
  | cons e rest ih =>
    intro acc
    cases he : e.2 with
    | rejected r =>
      simp only [List.foldl_cons, collectStep, he, ih, successAgents,
        errorsOf, successEntry, errEntry, List.flatMap_cons, List.filterMap_cons]
      simp [List.append_assoc]
    | fulfilled xs =>
      simp only [List.foldl_cons, collectStep, he, ih, successAgents,
        errorsOf, successEntry, errEntry, List.flatMap_cons, List.filterMap_cons]
      simp [insertAgents, List.foldl_append]

theorem collectSettled_eq (entries : List (ProviderName × SettledResult)) :
    collectSettled entries = (insertAgents [] (successAgents entries), errorsOf entries) := by
  have h := foldl_collectStep entries ([], [])
  simpa [collectSettled] using h

/-- The provider error `searchAll` records for one adapter, if any. -/
def searchErrOf (timeoutMs : Nat) (a : AdapterSim) : Option ProviderErrorR :=
  match a.outcome with
  | .success _ => none
  | .failure m => some ⟨a.provider, .adapterError, m⟩
  | .hang => some ⟨a.provider, .timeout, timeoutMessage a.provider timeoutMs⟩

theorem errEntry_settle (tm : Nat) (a : AdapterSim) :
    errEntry (a.provider, settleSearch tm a) = searchErrOf tm a := by
  cases ha : a.outcome <;>
    simp [errEntry, settleSearch, ha, searchErrOf, toProviderError]

theorem errorsOf_settled (tm : Nat) (targets : List AdapterSim) :
    errorsOf (targets.map fun a => (a.provider, settleSearch tm a)) =
      targets.filterMap (searchErrOf tm) := by
  induction targets with
  | nil => rfl
  | cons a rest ih =>
    simp only [List.map_cons, errorsOf, List.filterMap_cons, errEntry_settle]
    cases searchErrOf tm a <;> simp_all [errorsOf]

theorem searchErrOf_provider {tm : Nat} {a : AdapterSim} {e : ProviderErrorR}
    (h : searchErrOf tm a = some e) : e.provider = a.provider := by
  unfold searchErrOf at h
  cases ha : a.outcome <;> rw [ha] at h <;> simp at h <;> rw [← h]

theorem mem_filterMap_err_provider {tm : Nat} {targets : List AdapterSim}
    {e : ProviderErrorR} (h : e ∈ targets.filterMap (searchErrOf tm)) :
    e.provider ∈ targets.map AdapterSim.provider := by
  rcases List.mem_filterMap.mp h with ⟨a, ha, hfa⟩
  rw [searchErrOf_provider hfa]
  exact List.mem_map_of_mem _ ha

theorem filter_errors_singleton {tm : Nat} :
    ∀ {targets : List AdapterSim},
      (targets.map AdapterSim.provider).Nodup → ∀ {a}, a ∈ targets →
      (targets.filterMap (searchErrOf tm)).filter
          (fun e => e.provider = a.provider) =
        (searchErrOf tm a).toList := by
  intro targets
  induction targets with
  | nil => intro _ a ha; cases ha
  | cons b rest ih =>
    intro hn a ha
    have hb : b.provider ∉ rest.map AdapterSim.provider :=
      (List.nodup_cons.mp hn).1
    have hrest := (List.nodup_cons.mp hn).2
    rcases List.mem_cons.mp ha with hab | ha'
    · subst hab
      have htail : (rest.filterMap (searchErrOf tm)).filter
          (fun e => e.provider = a.provider) = [] := by
        apply List.filter_eq_nil_iff.mpr
        intro e he
        simp only [decide_eq_true_eq]
        intro hcontra
        exact hb (hcontra ▸ mem_filterMap_err_provider he)
      cases hfa : searchErrOf tm a with
      | none =>
        rw [List.filterMap_cons_none hfa, htail]
        rfl
      | some e =>
        rw [List.filterMap_cons_some hfa]
        have hep : e.provider = a.provider := searchErrOf_provider hfa
        simp [List.filter_cons, hep, htail]
    · have hbp : b.provider ≠ a.provider := by
        intro hcontra
        exact hb (hcontra ▸ List.mem_map_of_mem _ ha')
      cases hfb : searchErrOf tm b with
      | none =>
        rw [List.filterMap_cons_none hfb]
        exact ih hrest ha'
      | some e =>
        rw [List.filterMap_cons_some hfb]
        have hep : e.provider = b.provider := searchErrOf_provider hfb
        rw [List.filter_cons_of_neg (by simp [hep, hbp])]
        exact ih hrest ha'

theorem searchAll_errors_eq (tm : Nat) (adapters : List AdapterSim)
    (pf : Option (List ProviderName)) (sort : Option SortMode) :
    (searchAll tm adapters pf sort).errors =
      (selectAdapters pf adapters).filterMap (searchErrOf tm) := by
  unfold searchAll
  rw [collectSettled_eq]
  exact errorsOf_settled tm (selectAdapters pf adapters)

theorem searchAll_results_perm (tm : Nat) (adapters : List AdapterSim)
    (pf : Option (List ProviderName)) (sort : Option SortMode) :
    (searchAll tm adapters pf sort).results.Perm (searchAllDeduped tm adapters pf) := by
  unfold searchAll searchAllDeduped sortAgents
  cases sort with
  | none => exact List.mergeSort_perm _ _
  | some s => cases s <;> exact List.mergeSort_perm _ _

theorem mem_results_of_success {tm : Nat} {adapters : List AdapterSim}
    {pf : Option (List ProviderName)} (sort : Option SortMode)
    {a : AdapterSim} (ha : a ∈ selectAdapters pf adapters)
    {xs : List UAgent} {x : UAgent} (hout : a.outcome = .success xs) (hx : x ∈ xs) :
    ∃ y ∈ (searchAll tm adapters pf sort).results, y.id = x.id := by
  have hmem : x ∈ successAgents (settledEntries tm adapters pf) := by
    unfold successAgents settledEntries
    apply List.mem_flatMap.mpr
    refine ⟨(a.provider, settleSearch tm a), List.mem_map_of_mem _ ha, ?_⟩
    simp [settleSearch, hout, successEntry, hx]
  have hded : ∃ y ∈ searchAllDeduped tm adapters pf, y.id = x.id := by
    unfold searchAllDeduped
    rw [collectSettled_eq]
    exact insertAgents_covers [] _ x hmem
  rcases hded with ⟨y, hy, hid⟩
  exact ⟨y, (searchAll_results_perm tm adapters pf sort).mem_iff.mpr hy, hid⟩

/-! ### Claim C3 -/

/-- C3: `searchAll` settles every selected adapter and returns
`{results, errors}`: the error list is exactly the per-adapter outcome map
(timeout for a never-settling search, adapter_error with the thrown message
for a throwing one); with distinct provider names each hanging adapter
contributes exactly one `timeout` entry and each throwing adapter exactly one
`adapter_error` entry, while every successful adapter's agents still appear
in the results. -/
theorem C3_searchAll_collects_all_outcomes :
    ∀ (timeoutMs : Nat) (adapters : List AdapterSim)
      (providerFilter : Option (List ProviderName)) (sort : Option SortMode),
      ((searchAll timeoutMs adapters providerFilter sort).errors =
        (selectAdapters providerFilter adapters).filterMap (searchErrOf timeoutMs)) ∧
      (((selectAdapters providerFilter adapters).map AdapterSim.provider).Nodup →
        ∀ a ∈ selectAdapters providerFilter adapters,
          (a.outcome = .hang →
            (searchAll timeoutMs adapters providerFilter sort).errors.filter
                (fun e => e.provider = a.provider) =
              [⟨a.provider, .timeout, timeoutMessage a.provider timeoutMs⟩]) ∧
          (∀ m, a.outcome = .failure m →
            (searchAll timeoutMs adapters providerFilter sort).errors.filter
                (fun e => e.provider = a.provider) =
              [⟨a.provider, .adapterError, m⟩])) ∧
      (∀ a ∈ selectAdapters providerFilter adapters, ∀ xs x,
        a.outcome = SearchOutcome.success xs → x ∈ xs →
        ∃ y ∈ (searchAll timeoutMs adapters providerFilter sort).results,
          y.id = x.id) := by
  intro tm adapters pf sort
  refine ⟨searchAll_errors_eq tm adapters pf sort, ?_, ?_⟩
  · intro hn a ha
    constructor
    · intro hout
      rw [searchAll_errors_eq tm adapters pf sort,
        filter_errors_singleton hn ha]
      simp [searchErrOf, hout]
    · intro m hout
      rw [searchAll_errors_eq tm adapters pf sort,
        filter_errors_singleton hn ha]
      simp [searchErrOf, hout]
  · intro a ha xs x hout hx
    exact mem_results_of_success sort ha hout hx

/-- Concrete scenario for the C3 witness: one adapter that never settles, one
that resolves with a single agent. -/
def wTimeoutAdapters : List AdapterSim :=
  [⟨.coinbase, .hang⟩,
   ⟨.thirdweb, .success [⟨"thirdweb:tw-2", ⟨0⟩, ⟨true, some 1⟩⟩]⟩]

/-- C3 witness: at the concrete two-adapter scenario, the hanging adapter
contributes exactly its one timeout entry and the successful adapter's agent
still appears in the results. -/
theorem C3_searchAll_collects_all_outcomes_witness :
    ((searchAll 5000 wTimeoutAdapters none none).errors.filter
        (fun e => e.provider = ProviderName.coinbase) =
      [⟨.coinbase, .timeout, timeoutMessage .coinbase 5000⟩]) ∧
    (∃ y ∈ (searchAll 5000 wTimeoutAdapters none none).results,
      y.id = "thirdweb:tw-2") := by
  constructor
  · exact (((C3_searchAll_collects_all_outcomes 5000 wTimeoutAdapters none none).2.1
      (by decide) ⟨.coinbase, .hang⟩ (by decide)).1 rfl)
  · exact (C3_searchAll_collects_all_outcomes 5000 wTimeoutAdapters none none).2.2
      ⟨.thirdweb, .success [⟨"thirdweb:tw-2", ⟨0⟩, ⟨true, some 1⟩⟩]⟩ (by decide)
      [⟨"thirdweb:tw-2", ⟨0⟩, ⟨true, some 1⟩⟩] ⟨"thirdweb:tw-2", ⟨0⟩, ⟨true, some 1⟩⟩
      rfl (by decide)

theorem insertAgent_id_nodup {acc : List UAgent} (a : UAgent)
    (h : (acc.map UAgent.id).Nodup) : ((insertAgent acc a).map UAgent.id).Nodup := by
  unfold insertAgent
  by_cases hany : acc.any (fun b => b.id = a.id)
  · rw [if_pos hany]; exact h
  · rw [if_neg hany]
    rw [List.map_append]
    rw [List.nodup_append]
    refine ⟨h, by simp, ?_⟩
    intro x hx
    simp only [List.map_cons, List.map_nil, List.mem_singleton]
    intro hcontra
    rcases List.mem_map.mp hx with ⟨b, hb, hbid⟩
    have : ∀ b ∈ acc, ¬ (b.id = a.id) := by
      intro b hb' hb''
      exact hany (List.any_eq_true.mpr ⟨b, hb', by simpa using hb''⟩)
    exact this b hb (by rw [hbid, hcontra])

theorem insertAgents_id_nodup (xs : List UAgent) :
    ∀ {acc : List UAgent}, (acc.map UAgent.id).Nodup →
      ((insertAgents acc xs).map UAgent.id).Nodup := by
  induction xs with
  | nil => intro acc h; exact h
  | cons a rest ih => intro acc h; exact ih (insertAgent_id_nodup a h)

theorem find?_insertAgent (acc : List UAgent) (a : UAgent) (id : String) :
    (insertAgent acc a).find? (fun b => b.id = id) =
      (acc.find? (fun b => b.id = id)).or ([a].find? (fun b => b.id = id)) := by
  unfold insertAgent
  by_cases hany : acc.any (fun b => b.id = a.id)
  · rw [if_pos hany]
    by_cases hid : a.id = id
    · have hsome : (acc.find? (fun b => b.id = id)).isSome := by
        rw [List.find?_isSome]
        rcases List.any_eq_true.mp hany with ⟨y, hy, h⟩
        exact ⟨y, hy, by simp at h ⊢; rw [h, hid]⟩
      rcases Option.isSome_iff_exists.mp hsome with ⟨r, hr⟩
      rw [hr]
      rfl
    · simp [hid]
  · rw [if_neg hany, List.find?_append]

theorem find?_insertAgents (xs : List UAgent) :
    ∀ (acc : List UAgent) (id : String),
      (insertAgents acc xs).find? (fun b => b.id = id) =
        (acc.find? (fun b => b.id = id)).or (xs.find? (fun b => b.id = id)) := by
  induction xs with
  | nil =>
    intro acc id
    simp [insertAgents]
  | cons a rest ih =>
    intro acc id
    have h1 : insertAgents acc (a :: rest) = insertAgents (insertAgent acc a) rest := rfl
    rw [h1, ih, find?_insertAgent, Option.or_assoc]
    congr 1
    by_cases hid : a.id = id <;> simp [List.find?_cons, hid]

theorem relevanceIndexFor_getElem {l : List UAgent} (h : (l.map UAgent.id).Nodup)
    {i : Nat} (hi : i < l.length) : relevanceIndexFor l l[i].id = i := by
  unfold relevanceIndexFor
  have hfind : l.findIdx? (fun a => a.id = l[i].id) = some i := by
    rw [List.findIdx?_eq_some_iff_getElem]
    refine ⟨hi, by simp, ?_⟩
    intro j hji
    have hj : j < l.length := Nat.lt_trans hji hi
    simp only [decide_eq_true_eq]
    intro hcontra
    have hjm : j < (l.map UAgent.id).length := by simpa using hj
    have him : i < (l.map UAgent.id).length := by simpa using hi
    have hmap : (l.map UAgent.id).get ⟨j, hjm⟩ = (l.map UAgent.id).get ⟨i, him⟩ := by
      simpa using hcontra
    have := (h.get_inj_iff).mp hmap
    simp at this
    omega
  rw [hfind]

theorem pairwise_relevanceLe {l : List UAgent} (h : (l.map UAgent.id).Nodup) :
    l.Pairwise (fun a b => relevanceLe (relevanceIndexFor l) a b = true) := by
  rw [List.pairwise_iff_getElem]
  intro i j hi hj hij
  simp only [relevanceLe, decide_eq_true_eq]
  rw [relevanceIndexFor_getElem h hi, relevanceIndexFor_getElem h hj]
  omega

/-! ### Claim C4 -/

/-- C4: deduplication in `searchAll` is first-seen-wins by agent id: the
deduplicated list has pairwise distinct ids; for every id, the agent kept is
the first agent with that id in the concatenation of the fulfilled adapters'
results (settled order); every sort mode returns a permutation of the
deduplicated list; and the default ordering (no sort, or sort = relevance)
is exactly the first-seen insertion order. -/
theorem C4_dedup_first_seen_wins :
    ∀ (timeoutMs : Nat) (adapters : List AdapterSim)
      (providerFilter : Option (List ProviderName)),
      ((searchAllDeduped timeoutMs adapters providerFilter).map UAgent.id).Nodup ∧
      (∀ id : String,
        (searchAllDeduped timeoutMs adapters providerFilter).find?
            (fun a => a.id = id) =
          (successAgents (settledEntries timeoutMs adapters providerFilter)).find?
            (fun a => a.id = id)) ∧
      (∀ sort, (searchAll timeoutMs adapters providerFilter sort).results.Perm
        (searchAllDeduped timeoutMs adapters providerFilter)) ∧
      (searchAll timeoutMs adapters providerFilter none).results =
        searchAllDeduped timeoutMs adapters providerFilter ∧
      (searchAll timeoutMs adapters providerFilter (some .relevance)).results =
        searchAllDeduped timeoutMs adapters providerFilter := by
  intro tm adapters pf
  have hded : searchAllDeduped tm adapters pf =
      insertAgents [] (successAgents (settledEntries tm adapters pf)) := by
    unfold searchAllDeduped
    rw [collectSettled_eq]
  have hnodup : ((searchAllDeduped tm adapters pf).map UAgent.id).Nodup := by
    rw [hded]
    exact insertAgents_id_nodup _ (by simp)
  refine ⟨hnodup, ?_, fun sort => searchAll_results_perm tm adapters pf sort, ?_, ?_⟩
  · intro id
    rw [hded, find?_insertAgents]
    simp
  · show List.mergeSort _ _ = _
    exact List.mergeSort_of_sorted (pairwise_relevanceLe hnodup)
  · show List.mergeSort _ _ = _
    exact List.mergeSort_of_sorted (pairwise_relevanceLe hnodup)

theorem priceAscLe_iff (rank : String → Nat) (l r : UAgent) :
    priceAscLe rank l r = true ↔
      (l.pricing.amountUsdcCents < r.pricing.amountUsdcCents ∨
        (l.pricing.amountUsdcCents = r.pricing.amountUsdcCents ∧
          rank l.id ≤ rank r.id)) := by
  unfold priceAscLe
  by_cases h : l.pricing.amountUsdcCents = r.pricing.amountUsdcCents <;>
    simp [h] <;> omega

theorem priceDescLe_iff (rank : String → Nat) (l r : UAgent) :
    priceDescLe rank l r = true ↔
      (r.pricing.amountUsdcCents < l.pricing.amountUsdcCents ∨
        (l.pricing.amountUsdcCents = r.pricing.amountUsdcCents ∧
          rank l.id ≤ rank r.id)) := by
  unfold priceDescLe
  by_cases h : l.pricing.amountUsdcCents = r.pricing.amountUsdcCents <;>
    simp [h] <;> omega

theorem availabilityLe_iff (rank : String → Nat) (l r : UAgent) :
    availabilityLe rank l r = true ↔
      ((l.availability.isOnline = true ∧ r.availability.isOnline = false) ∨
        (l.availability.isOnline = r.availability.isOnline ∧
          (latencyKey l < latencyKey r ∨
            (latencyKey l = latencyKey r ∧ rank l.id ≤ rank r.id)))) := by
  unfold availabilityLe
  cases hl : l.availability.isOnline <;> cases hr : r.availability.isOnline <;>
    by_cases hlat : latencyKey l = latencyKey r <;>
      simp [hl, hr, hlat] <;> omega

theorem priceAscLe_trans (rank : String → Nat) :
    ∀ a b c, priceAscLe rank a b → priceAscLe rank b c → priceAscLe rank a c := by
  intro a b c hab hbc
  rw [priceAscLe_iff] at hab hbc ⊢
  omega

theorem priceAscLe_total (rank : String → Nat) :
    ∀ a b, priceAscLe rank a b || priceAscLe rank b a := by
  intro a b
  rw [Bool.or_eq_true, priceAscLe_iff, priceAscLe_iff]
  omega

theorem priceDescLe_trans (rank : String → Nat) :
    ∀ a b c, priceDescLe rank a b → priceDescLe rank b c → priceDescLe rank a c := by
  intro a b c hab hbc
  rw [priceDescLe_iff] at hab hbc ⊢
  omega

theorem priceDescLe_total (rank : String → Nat) :
    ∀ a b, priceDescLe rank a b || priceDescLe rank b a := by
  intro a b
  rw [Bool.or_eq_true, priceDescLe_iff, priceDescLe_iff]
  omega

theorem availabilityLe_trans (rank : String → Nat) :
    ∀ a b c, availabilityLe rank a b → availabilityLe rank b c →
      availabilityLe rank a c := by
  intro a b c hab hbc
  rw [availabilityLe_iff] at hab hbc ⊢
  cases ha : a.availability.isOnline <;> cases hb : b.availability.isOnline <;>
    cases hc : c.availability.isOnline <;>
      simp [ha, hb, hc] at hab hbc ⊢ <;> omega

theorem availabilityLe_total (rank : String → Nat) :
    ∀ a b, availabilityLe rank a b || availabilityLe rank b a := by
  intro a b
  rw [Bool.or_eq_true, availabilityLe_iff, availabilityLe_iff]
  cases ha : a.availability.isOnline <;> cases hb : b.availability.isOnline <;>
    simp [ha, hb] <;> omega

/-- Order on optional latencies with a missing latency treated as plus
infinity (the claim's reading of the `MAX_SAFE_INTEGER` sentinel). -/
def latencyLeInf : Option Nat → Option Nat → Prop
  | _, none => True
  | none, some _ => False
  | some a, some b => a ≤ b

theorem availabilityLe_shape {rank : String → Nat} {l r : UAgent}
    (hbl : ∀ lm, l.availability.latencyMs = some lm → lm < MAX_SAFE_INTEGER)
    (hbr : ∀ lm, r.availability.latencyMs = some lm → lm < MAX_SAFE_INTEGER)
    (h : availabilityLe rank l r = true) :
    (r.availability.isOnline = true → l.availability.isOnline = true) ∧
    (l.availability.isOnline = r.availability.isOnline →
      latencyLeInf l.availability.latencyMs r.availability.latencyMs ∧
      (l.availability.latencyMs = r.availability.latencyMs →
        rank l.id ≤ rank r.id)) := by
  rw [availabilityLe_iff] at h
  constructor
  · intro hron
    rcases h with ⟨h1, _⟩ | ⟨h1, _⟩
    · exact h1
    · rw [h1, hron]
  · intro heq
    rcases h with ⟨h1, h2⟩ | ⟨h1, h2⟩
    · rw [h1, h2] at heq
      exact absurd heq (by simp)
    · cases hl : l.availability.latencyMs with
      | none =>
        cases hr : r.availability.latencyMs with
        | none =>
          refine ⟨trivial, fun _ => ?_⟩
          have hkl : latencyKey l = MAX_SAFE_INTEGER := by simp [latencyKey, hl]
          have hkr : latencyKey r = MAX_SAFE_INTEGER := by simp [latencyKey, hr]
          rw [hkl, hkr] at h2
          omega
        | some b =>
          exfalso
          have hkl : latencyKey l = MAX_SAFE_INTEGER := by simp [latencyKey, hl]
          have hkr : latencyKey r = b := by simp [latencyKey, hr]
          have hblt := hbr b hr
          rw [hkl, hkr] at h2
          omega
      | some a =>
        cases hr : r.availability.latencyMs with
        | none =>
          refine ⟨trivial, fun hle => ?_⟩
          exact absurd hle (by simp)
        | some b =>
          have hkl : latencyKey l = a := by simp [latencyKey, hl]
          have hkr : latencyKey r = b := by simp [latencyKey, hr]
          rw [hkl, hkr] at h2
          refine ⟨?_, fun hle => ?_⟩
          · show a ≤ b
            omega
          · have hab : a = b := by
              simpa using hle
            omega

/-! ### Claim C5 -/

/-- C5: with `sort = price_asc` the results are non-decreasing in
`pricing.amountUsdcCents` with equal-price ties in relevance-rank order;
`price_desc` is the non-increasing analogue; with `sort = availability`,
every online agent precedes every offline one, agents with equal `isOnline`
are ordered by ascending latency with a missing latency treated as plus
infinity (under the implicit premise that real latencies are below
`Number.MAX_SAFE_INTEGER`, the code's sentinel), and remaining ties are in
relevance-rank order. -/
theorem C5_sort_semantics :
    ∀ (timeoutMs : Nat) (adapters : List AdapterSim)
      (providerFilter : Option (List ProviderName)),
      ((searchAll timeoutMs adapters providerFilter (some .priceAsc)).results.Pairwise
        (fun l r =>
          l.pricing.amountUsdcCents ≤ r.pricing.amountUsdcCents ∧
          (l.pricing.amountUsdcCents = r.pricing.amountUsdcCents →
            searchAllRank timeoutMs adapters providerFilter l.id ≤
              searchAllRank timeoutMs adapters providerFilter r.id))) ∧
      ((searchAll timeoutMs adapters providerFilter (some .priceDesc)).results.Pairwise
        (fun l r =>
          r.pricing.amountUsdcCents ≤ l.pricing.amountUsdcCents ∧
          (l.pricing.amountUsdcCents = r.pricing.amountUsdcCents →
            searchAllRank timeoutMs adapters providerFilter l.id ≤
              searchAllRank timeoutMs adapters providerFilter r.id))) ∧
      ((∀ a ∈ searchAllDeduped timeoutMs adapters providerFilter, ∀ lm,
          a.availability.latencyMs = some lm → lm < MAX_SAFE_INTEGER) →
        (searchAll timeoutMs adapters providerFilter (some .availability)).results.Pairwise
          (fun l r =>
            (r.availability.isOnline = true → l.availability.isOnline = true) ∧
            (l.availability.isOnline = r.availability.isOnline →
              latencyLeInf l.availability.latencyMs r.availability.latencyMs ∧
              (l.availability.latencyMs = r.availability.latencyMs →
                searchAllRank timeoutMs adapters providerFilter l.id ≤
                  searchAllRank timeoutMs adapters providerFilter r.id)))) := by
  intro tm adapters pf
  refine ⟨?_, ?_, ?_⟩
  · have hs := List.sorted_mergeSort
      (priceAscLe_trans (searchAllRank tm adapters pf))
      (priceAscLe_total (searchAllRank tm adapters pf))
      (searchAllDeduped tm adapters pf)
    refine List.Pairwise.imp ?_ hs
    intro a b hab
    rw [priceAscLe_iff] at hab
    exact ⟨by omega, fun h => by omega⟩
  · have hs := List.sorted_mergeSort
      (priceDescLe_trans (searchAllRank tm adapters pf))
      (priceDescLe_total (searchAllRank tm adapters pf))
      (searchAllDeduped tm adapters pf)
    refine List.Pairwise.imp ?_ hs
    intro a b hab
    rw [priceDescLe_iff] at hab
    exact ⟨by omega, fun h => by omega⟩
  · intro hbound
    have hs := List.sorted_mergeSort
      (availabilityLe_trans (searchAllRank tm adapters pf))
      (availabilityLe_total (searchAllRank tm adapters pf))
      (searchAllDeduped tm adapters pf)
    refine List.Pairwise.imp_of_mem ?_ hs
    intro a b ha hb hab
    have had : a ∈ searchAllDeduped tm adapters pf := List.mem_mergeSort.mp ha
    have hbd : b ∈ searchAllDeduped tm adapters pf := List.mem_mergeSort.mp hb
    exact availabilityLe_shape (hbound a had) (hbound b hbd) hab

/-- Concrete scenario for the C5 witness: one adapter with three priced
agents. -/
def wPriceAdapters : List AdapterSim :=
  [⟨.coinbase, .success
    [⟨"coinbase:expensive", ⟨300⟩, ⟨true, some 10⟩⟩,
     ⟨"coinbase:cheap", ⟨100⟩, ⟨true, some 20⟩⟩,
     ⟨"coinbase:mid", ⟨200⟩, ⟨true, some 30⟩⟩]⟩]

/-- C5 witness: the availability conjunct applied at the concrete scenario
(its latency bound discharged by evaluation), plus the price_asc conjunct. -/
theorem C5_sort_semantics_witness :
    ((searchAll 5000 wPriceAdapters none (some .priceAsc)).results.Pairwise
      (fun l r =>
        l.pricing.amountUsdcCents ≤ r.pricing.amountUsdcCents ∧
        (l.pricing.amountUsdcCents = r.pricing.amountUsdcCents →
          searchAllRank 5000 wPriceAdapters none l.id ≤
            searchAllRank 5000 wPriceAdapters none r.id))) ∧
    ((searchAll 5000 wPriceAdapters none (some .availability)).results.Pairwise
      (fun l r =>
        (r.availability.isOnline = true → l.availability.isOnline = true) ∧
        (l.availability.isOnline = r.availability.isOnline →
          latencyLeInf l.availability.latencyMs r.availability.latencyMs ∧
          (l.availability.latencyMs = r.availability.latencyMs →
            searchAllRank 5000 wPriceAdapters none l.id ≤
              searchAllRank 5000 wPriceAdapters none r.id)))) :=
  ⟨(C5_sort_semantics 5000 wPriceAdapters none).1,
   (C5_sort_semantics 5000 wPriceAdapters none).2.2 (by decide)⟩

/-! ## X402PaymentCodec — payment requirement extraction
(src/src/lib/payment/x402.ts) -/

/-- JavaScript value tree as produced by `JSON.parse` (object keys unique,
in insertion order). -/
inductive Json
  | jnull
  | jbool (b : Bool)
  | jnum (n : Int)
  | jstr (s : String)
  | jarr (elems : List Json)
  | jobj (fields : List (String × Json))

/-- Property access on a parsed value: `undefined` (`none`) except for an
object's own field. -/
def getField : Json → String → Option Json
  | .jobj fields, k => (fields.find? (fun f => f.1 = k)).map Prod.snd
  | _, _ => none

/-- `isObject`: non-null values of `typeof "object"` (arrays included). -/
def isObject : Json → Bool
  | .jobj _ => true
  | .jarr _ => true
  | _ => false

/-- `isSupportedX402Network` applied to the raw `network` field. -/
def isSupportedX402Network : Option Json → Bool
  | some (.jstr s) => s = "base" || s = "base-sepolia"
  | _ => false

/-- The `accept.scheme !== "exact"` test (on the raw field). -/
def isExactScheme : Option Json → Bool
  | some (.jstr s) => s = "exact"
  | _ => false

/-- The raw `network` field as a string. -/
def acceptNetworkStr : Option Json → Option String
  | some (.jstr s) => some s
  | _ => none

/-- `normalizeAmount`: a string of one or more ASCII digits after trimming
(the `/^[0-9]+$/` test). -/
def normalizeAmount : Option Json → Option String
  | some (.jstr s) =>
    let trimmed := jsTrim s
    if trimmed.data ≠ [] ∧ trimmed.data.all isDigitChar then some trimmed else none
  | _ => none

/-- viem `isAddress(value, {strict:false})`: `0x` followed by exactly forty
hexadecimal digits. -/
def isAddressNonStrict (s : String) : Bool :=
  listStartsWith "0x".data s.data && decide (s.data.length = 42) &&
  (s.data.drop 2).all isHexChar

/-- `normalizeHexAddress`: trim, validate the shape, then checksum through
viem `getAddress` — the Keccak-based checksumming is an external library
function and enters the embedding as the parameter `getAddr`. -/
def normalizeHexAddress (getAddr : String → String) : Option Json → Option String
  | some (.jstr s) =>
    let trimmed := jsTrim s
    if isAddressNonStrict trimmed then some (getAddr trimmed) else none
  | _ => none

/-- `ExactEvmPaymentRequirement`. -/
structure ExactEvmPaymentRequirement where
  x402Version : Int
  scheme : String
  network : String
  amount : String
  payTo : String
  asset : String
deriving DecidableEq

/-- JavaScript nullish coalescing `a ?? b` on JSON field reads. -/
def nullish (a b : Option Json) : Option Json :=
  match a with
  | none => b
  | some .jnull => b
  | some v => some v

/-- The `x402Version` the extractor reports: the payload's own finite number
(truncated), defaulting to `1`. -/
def extractVersion (payload : Json) : Int :=
  match getField payload "x402Version" with
  | some (.jnum n) => n
  | _ => 1

/-- The loop body of `extractExactEvmPaymentRequirement` for one candidate
entry of `accepts[]`: `none` is the `continue` of the source. -/
def extractFromAccept (getAddr : String → String) (ver : Int) (c : Json) :
    Option ExactEvmPaymentRequirement :=
  if ¬ isObject c then none
  else if ¬ isExactScheme (getField c "scheme") then none
  else if ¬ isSupportedX402Network (getField c "network") then none
  else
    match normalizeAmount (nullish (getField c "maxAmountRequired") (getField c "amount")),
      normalizeHexAddress getAddr (getField c "payTo"),
      normalizeHexAddress getAddr (getField c "asset"),
      acceptNetworkStr (getField c "network") with
    | some amount, some payTo, some asset, some network =>
      some ⟨ver, "exact", network, amount, payTo, asset⟩
    | _, _, _, _ => none

/-- The `for (const candidate of accepts)` scan. -/
def extractScan (getAddr : String → String) (ver : Int) :
    List Json → Option ExactEvmPaymentRequirement
  | [] => none
  | c :: rest =>
    match extractFromAccept getAddr ver c with
    | some r => some r
    | none => extractScan getAddr ver rest

/-- `extractExactEvmPaymentRequirement` from x402.ts (parameterised by the
external `getAddress` checksummer). -/
def extractExactEvmPaymentRequirement (getAddr : String → String)
    (payload : Json) : Option ExactEvmPaymentRequirement :=
  if ¬ isObject payload then none
  else
    match getField payload "accepts" with
    | some (.jarr accepts) => extractScan getAddr (extractVersion payload) accepts
    | _ => none

/-- A qualifying `accepts[]` entry: exact scheme, supported network, and
well-formed amount, payTo and asset. -/
def qualifies (getAddr : String → String) (c : Json) : Bool :=
  isObject c && isExactScheme (getField c "scheme") &&
  isSupportedX402Network (getField c "network") &&
  (normalizeAmount (nullish (getField c "maxAmountRequired") (getField c "amount"))).isSome &&
  (normalizeHexAddress getAddr (getField c "payTo")).isSome &&
  (normalizeHexAddress getAddr (getField c "asset")).isSome

theorem extractFromAccept_none_iff (getAddr : String → String) (ver : Int) (c : Json) :
    extractFromAccept getAddr ver c = none ↔ qualifies getAddr c = false := by
  unfold extractFromAccept qualifies
  by_cases h1 : isObject c <;> simp [h1]
  by_cases h2 : isExactScheme (getField c "scheme") <;> simp [h2]
  by_cases h3 : isSupportedX402Network (getField c "network") <;> simp [h3]
  cases ha : normalizeAmount (nullish (getField c "maxAmountRequired") (getField c "amount")) <;>
    cases hp : normalizeHexAddress getAddr (getField c "payTo") <;>
      cases hs : normalizeHexAddress getAddr (getField c "asset") <;>
        simp [ha, hp, hs]
  cases hn : acceptNetworkStr (getField c "network")
  · exfalso
    unfold isSupportedX402Network at h3
    unfold acceptNetworkStr at hn
    match hv : getField c "network", h3, hn with
    | some (.jstr s), _, hn => simp at hn
    | none, h3, _ => simp at h3
  · simp

theorem extractScan_eq_find (getAddr : String → String) (ver : Int) :
    ∀ accepts : List Json,
      extractScan getAddr ver accepts =
        (accepts.find? (qualifies getAddr)).bind (extractFromAccept getAddr ver) := by
  intro accepts
  induction accepts with
  | nil => rfl
  | cons c rest ih =>
    by_cases hq : qualifies getAddr c = true
    · rw [List.find?_cons_of_pos _ hq]
      cases hc : extractFromAccept getAddr ver c with
      | none => exact absurd ((extractFromAccept_none_iff getAddr ver c).mp hc) (by simp [hq])
      | some r => simp [extractScan, hc]
    · have hc : extractFromAccept getAddr ver c = none := by
        rw [extractFromAccept_none_iff]
        simpa using hq
      rw [List.find?_cons_of_neg _ hq]
      simp [extractScan, hc, ih]

theorem normalizeAmount_some {v : Option Json} {s : String}
    (h : normalizeAmount v = some s) :
    s.data ≠ [] ∧ s.data.all isDigitChar = true := by
  match v, h with
  | some (.jstr str), h =>
    simp only [normalizeAmount] at h
    by_cases hc : (jsTrim str).data ≠ [] ∧ (jsTrim str).data.all isDigitChar = true
    · rw [if_pos hc] at h
      injection h with h'
      subst h'
      exact hc
    · rw [if_neg hc] at h
      cases h

theorem normalizeHexAddress_some {getAddr : String → String} {v : Option Json}
    {s : String} (h : normalizeHexAddress getAddr v = some s) :
    ∃ t, s = getAddr t ∧ isAddressNonStrict t = true := by
  match v, h with
  | some (.jstr str), h =>
    simp only [normalizeHexAddress] at h
    by_cases hc : isAddressNonStrict (jsTrim str) = true
    · rw [if_pos hc] at h
      injection h with h'
      exact ⟨jsTrim str, h'.symm, hc⟩
    · rw [if_neg hc] at h
      cases h

theorem network_of_supported {v : Option Json} {s : String}
    (hsup : isSupportedX402Network v = true) (hstr : acceptNetworkStr v = some s) :
    s = "base" ∨ s = "base-sepolia" := by
  match v, hsup, hstr with
  | some (.jstr t), hsup, hstr =>
    simp [acceptNetworkStr] at hstr
    simp [isSupportedX402Network] at hsup
    subst hstr
    exact hsup

theorem extractFromAccept_some_shape {getAddr : String → String} {ver : Int}
    {c : Json} {r : ExactEvmPaymentRequirement}
    (h : extractFromAccept getAddr ver c = some r) :
    r.x402Version = ver ∧ r.scheme = "exact" ∧
    (r.network = "base" ∨ r.network = "base-sepolia") ∧
    r.amount.data ≠ [] ∧ r.amount.data.all isDigitChar = true ∧
    (∃ t, r.payTo = getAddr t ∧ isAddressNonStrict t = true) ∧
    (∃ t, r.asset = getAddr t ∧ isAddressNonStrict t = true) := by
  unfold extractFromAccept at h
  split at h
  · cases h
  · split at h
    · cases h
    · split at h
      · cases h
      · rename_i h1 h2 h3
        split at h
        · rename_i amount payTo asset network ha hp hs hn
          injection h with h'
          subst h'
          refine ⟨rfl, rfl, ?_, ?_, ?_, ?_, ?_⟩
          · exact network_of_supported (by simpa using h3) hn
          · exact (normalizeAmount_some ha).1
          · exact (normalizeAmount_some ha).2
          · exact normalizeHexAddress_some hp
          · exact normalizeHexAddress_some hs
        · cases h

/-! ### Claim C8 -/

/-- C8: the extractor returns `none` on a non-object payload and on a payload
whose `accepts` is missing or not an array; on an `accepts` array it returns
the first entry satisfying the qualification predicate (exact scheme,
supported network, valid amount/payTo/asset), processed by the per-entry
extraction; and any produced requirement has scheme `exact`, a network from
the allow-list, a digits-only amount, and payTo/asset produced by the
checksum normalizer from shape-valid EVM addresses.  Totality of the
embedding reflects that the extractor never throws. -/
theorem C8_extractExactEvmPaymentRequirement_spec :
    ∀ (getAddr : String → String) (payload : Json),
      (isObject payload = false →
        extractExactEvmPaymentRequirement getAddr payload = none) ∧
      ((¬ ∃ xs, getField payload "accepts" = some (.jarr xs)) →
        extractExactEvmPaymentRequirement getAddr payload = none) ∧
      (∀ accepts, getField payload "accepts" = some (.jarr accepts) →
        extractExactEvmPaymentRequirement getAddr payload =
          (accepts.find? (qualifies getAddr)).bind
            (extractFromAccept getAddr (extractVersion payload))) ∧
      (∀ r, extractExactEvmPaymentRequirement getAddr payload = some r →
        r.scheme = "exact" ∧ (r.network = "base" ∨ r.network = "base-sepolia") ∧
        r.amount.data ≠ [] ∧ r.amount.data.all isDigitChar = true ∧
        (∃ t, r.payTo = getAddr t ∧ isAddressNonStrict t = true) ∧
        (∃ t, r.asset = getAddr t ∧ isAddressNonStrict t = true)) := by
  intro getAddr payload
  refine ⟨?_, ?_, ?_, ?_⟩
  · intro h
    unfold extractExactEvmPaymentRequirement
    simp [h]
  · intro h
    unfold extractExactEvmPaymentRequirement
    split
    · rfl
    · cases hf : getField payload "accepts" with
      | none => rfl
      | some j =>
        cases j with
        | jarr xs => exact absurd ⟨xs, hf⟩ h
        | jnull => rfl
        | jbool b => rfl
        | jnum n => rfl
        | jstr s => rfl
        | jobj fields => rfl
  · intro accepts hf
    have hobj : isObject payload = true := by
      cases payload <;> first | rfl | simp [getField] at hf
    unfold extractExactEvmPaymentRequirement
    rw [if_neg (by simp [hobj]), hf]
    exact extractScan_eq_find getAddr (extractVersion payload) accepts
  · intro r hr
    unfold extractExactEvmPaymentRequirement at hr
    split at hr
    · cases hr
    · split at hr
      · rename_i accepts hf
        rw [extractScan_eq_find] at hr
        rcases Option.bind_eq_some.mp hr with ⟨c, hc, hcr⟩
        have h := extractFromAccept_some_shape hcr
        exact ⟨h.2.1, h.2.2.1, h.2.2.2.1, h.2.2.2.2.1, h.2.2.2.2.2.1, h.2.2.2.2.2.2⟩
      · cases hr

/-- The 402 body of the repository's x402 test (part_007), as a parsed
value. -/
def wX402Body : Json :=
  .jobj [("x402Version", .jnum 1), ("error", .jstr "Payment required"),
    ("accepts", .jarr
      [.jobj [("scheme", .jstr "exact"), ("network", .jstr "base"),
        ("maxAmountRequired", .jstr "1100"),
        ("resource", .jstr "https://public.zapper.xyz/x402/defi-balances"),
        ("payTo", .jstr "0x43a2a720cd0911690c248075f4a29a5e7716f758"),
        ("asset", .jstr "0x833589fCD6eDb6E08f4c7C32D4f71b54bdA02913")]])]

/-- C8 witness: the theorem applied at the test's 402 body (with the identity
as the checksum stand-in) and at a null payload. -/
theorem C8_extractExactEvmPaymentRequirement_spec_witness :
    extractExactEvmPaymentRequirement (fun s => s) wX402Body =
      some ⟨1, "exact", "base", "1100",
        "0x43a2a720cd0911690c248075f4a29a5e7716f758",
        "0x833589fCD6eDb6E08f4c7C32D4f71b54bdA02913"⟩ ∧
    extractExactEvmPaymentRequirement (fun s => s) .jnull = none := by
  constructor
  · rw [(C8_extractExactEvmPaymentRequirement_spec (fun s => s) wX402Body).2.2.1 _ rfl]
    decide
  · exact (C8_extractExactEvmPaymentRequirement_spec (fun s => s) .jnull).1 rfl

/-! ## X402PaymentCodec — payment header encoding
(src/src/lib/payment/x402.ts) -/

/-- `Eip3009Authorization`; the source fields `from` and `to` are Lean
keywords and are embedded as `fromAddr` and `toAddr`. -/
structure Eip3009Authorization where
  fromAddr : String
  toAddr : String
  value : String
  validAfter : String
  validBefore : String
  nonce : String
deriving DecidableEq

/-- `X402Network` (`"base" | "base-sepolia"`). -/
inductive X402Network
  | base
  | baseSepolia
deriving DecidableEq

/-- The wire string of a network. -/
def x402NetworkStr : X402Network → String
  | .base => "base"
  | .baseSepolia => "base-sepolia"

/-- The standard base64 alphabet. -/
def BASE64_ALPHABET : List Char :=
  "ABCDEFGHIJKLMNOPQRSTUVWXYZabcdefghijklmnopqrstuvwxyz0123456789+/".data

/-- Character of one sextet. -/
def b64Char (n : Nat) : Char :=
  BASE64_ALPHABET.getD n 'A'

/-- Sextet of one character (`none` off the alphabet, `'='` included). -/
def b64CharVal (c : Char) : Option Nat :=
  BASE64_ALPHABET.findIdx? (· = c)

/-- Standard base64 encoding of a byte list, with `=` padding (the `Buffer`
`"base64"` codec). -/
def b64Encode : List Nat → List Char
  | [] => []
  | [a] => [b64Char (a / 4), b64Char (a % 4 * 16), '=', '=']
  | [a, b] => [b64Char (a / 4), b64Char (a % 4 * 16 + b / 16), b64Char (b % 16 * 4), '=']
  | a :: b :: c :: rest =>
    b64Char (a / 4) :: b64Char (a % 4 * 16 + b / 16) ::
      b64Char (b % 16 * 4 + c / 64) :: b64Char (c % 64) :: b64Encode rest

/-- Standard base64 decoding (padded input). -/
def b64Decode : List Char → Option (List Nat)
  | [] => some []
  | w :: x :: y :: z :: rest =>
    (match b64CharVal w, b64CharVal x with
    | some vw, some vx =>
      if y = '=' ∧ z = '=' ∧ rest = [] then
        some [vw * 4 + vx / 16]
      else
        match b64CharVal y with
        | some vy =>
          if z = '=' ∧ rest = [] then
            some [vw * 4 + vx / 16, vx % 16 * 16 + vy / 4]
          else
            match b64CharVal z, b64Decode rest with
            | some vz, some tail =>
              some ((vw * 4 + vx / 16) :: (vx % 16 * 16 + vy / 4) ::
                (vy % 4 * 64 + vz) :: tail)
            | _, _ => none
        | none => none
    | _, _ => none)
  | _ => none

/-- Lower-case hexadecimal digit character of a value below 16. -/
def hexDigitChar (n : Nat) : Char :=
  if n < 10 then Char.ofNat (48 + n) else Char.ofNat (87 + n)

/-- `JSON.stringify`'s string escaping for one character: `"` and `\` get a
backslash escape, the five control characters with short escapes get those,
any other code point below 32 becomes `\u00XX` (lower-case hex), and
everything else passes through. -/
def escapeChar (c : Char) : List Char :=
  if c = '"' then ['\\', '"']
  else if c = '\\' then ['\\', '\\']
  else if c.toNat = 8 then ['\\', 'b']
  else if c.toNat = 9 then ['\\', 't']
  else if c.toNat = 10 then ['\\', 'n']
  else if c.toNat = 12 then ['\\', 'f']
  else if c.toNat = 13 then ['\\', 'r']
  else if c.toNat < 32 then
    ['\\', 'u', '0', '0', hexDigitChar (c.toNat / 16), hexDigitChar (c.toNat % 16)]
  else [c]

/-- `JSON.stringify`'s escaping over a character list. -/
def escapeList (cs : List Char) : List Char :=
  cs.flatMap escapeChar

/-- JSON string-body parsing (the part after the opening quote), undoing the
escapes `JSON.parse` accepts; returns the decoded characters and the input
after the closing quote. -/
def parseStrBody : List Char → Option (List Char × List Char)
  | [] => none
  | c :: rest =>
    if c = '"' then some ([], rest)
    else if c = '\\' then
      match rest with
      | [] => none
      | e :: rest2 =>
        if e = '"' then (parseStrBody rest2).map (fun p => ('"' :: p.1, p.2))
        else if e = '\\' then (parseStrBody rest2).map (fun p => ('\\' :: p.1, p.2))
        else if e = '/' then (parseStrBody rest2).map (fun p => ('/' :: p.1, p.2))
        else if e = 'b' then (parseStrBody rest2).map (fun p => (Char.ofNat 8 :: p.1, p.2))
        else if e = 't' then (parseStrBody rest2).map (fun p => (Char.ofNat 9 :: p.1, p.2))
        else if e = 'n' then (parseStrBody rest2).map (fun p => (Char.ofNat 10 :: p.1, p.2))
        else if e = 'f' then (parseStrBody rest2).map (fun p => (Char.ofNat 12 :: p.1, p.2))
        else if e = 'r' then (parseStrBody rest2).map (fun p => (Char.ofNat 13 :: p.1, p.2))
        else if e = 'u' then
          match rest2 with
          | h1 :: h2 :: h3 :: h4 :: rest3 =>
            if [h1, h2, h3, h4].all isHexChar then
              (parseStrBody rest3).map
                (fun p => (Char.ofNat (hexDigitsVal [h1, h2, h3, h4]) :: p.1, p.2))
            else none
          | _ => none
        else none
    else (parseStrBody rest).map (fun p => (c :: p.1, p.2))

/-- Alternation of literal JSON punctuation and quoted, escaped string
values, ending in a tail: the building block of the serialized token. -/
def serializeFields : List (List Char × List Char) → List Char → List Char
  | [], tail => tail
  | (lit, v) :: rest, tail =>
    lit ++ ('"' :: (escapeList v ++ '"' :: serializeFields rest tail))

/-- The literal/value alternation of the serialized token payload, keys in
object-literal insertion order. -/
def tokenFieldPairs (network : X402Network) (signature : String)
    (auth : Eip3009Authorization) : List (List Char × List Char) :=
  [("\x7b\"x402Version\":1,\"scheme\":\"exact\",\"network\":".data,
      (x402NetworkStr network).data),
   (",\"payload\":\x7b\"signature\":".data, signature.data),
   (",\"authorization\":\x7b\"from\":".data, auth.fromAddr.data),
   (",\"to\":".data, auth.toAddr.data),
   (",\"value\":".data, auth.value.data),
   (",\"validAfter\":".data, auth.validAfter.data),
   (",\"validBefore\":".data, auth.validBefore.data),
   (",\"nonce\":".data, auth.nonce.data)]

/-- The serialized token payload
`{"x402Version":1,"scheme":"exact","network":…,"payload":{"signature":…,"authorization":{…}}}`
— `JSON.stringify` of the object literal built by `encodeXPaymentHeader`,
with keys in insertion order and string values escaped. -/
def serializeTokenPayload (network : X402Network) (signature : String)
    (auth : Eip3009Authorization) : List Char :=
  serializeFields (tokenFieldPairs network signature auth) "\x7d\x7d\x7d".data

/-- `encodeXPaymentHeader`: serialize the token payload as JSON and base64
encode its UTF-8 bytes.  Bytes are modelled as character code points, which
is UTF-8 exactly on ASCII strings; the round-trip theorem's hypotheses
restrict the field values to that range (the protocol's hex/decimal
strings). -/
def encodeXPaymentHeader (network : X402Network) (signature : String)
    (auth : Eip3009Authorization) : String :=
  String.mk (b64Encode ((serializeTokenPayload network signature auth).map Char.toNat))

/-- Decoded payment payload (`payload` of the decoded header). -/
structure DecodedPaymentPayload where
  signature : String
  authorization : Eip3009Authorization
deriving DecidableEq

/-- Decoded payment header. -/
structure DecodedPayment where
  x402Version : Int
  scheme : String
  network : String
  payload : DecodedPaymentPayload
deriving DecidableEq

/-- Consume an expected literal. -/
def expectLit (pat cs : List Char) : Option (List Char) :=
  if cs.take pat.length = pat then some (cs.drop pat.length) else none

/-- Parse one JSON string (opening quote, body, closing quote). -/
def parseQuoted (cs : List Char) : Option (List Char × List Char) :=
  match cs with
  | c :: rest => if c = '"' then parseStrBody rest else none
  | [] => none

/-- Parse an alternation of expected literals and quoted strings, returning
the decoded string values and the remaining input. -/
def parseFields : List (List Char) → List Char → Option (List (List Char) × List Char)
  | [], cs => some ([], cs)
  | lit :: lits, cs =>
    match expectLit lit cs with
    | none => none
    | some cs1 =>
      match parseQuoted cs1 with
      | none => none
      | some (v, cs2) =>
        match parseFields lits cs2 with
        | none => none
        | some (vs, cs3) => some (v :: vs, cs3)

/-- The literal parts of the token layout, in serialization order. -/
def tokenFieldLits : List (List Char) :=
  ["\x7b\"x402Version\":1,\"scheme\":\"exact\",\"network\":".data,
   ",\"payload\":\x7b\"signature\":".data,
   ",\"authorization\":\x7b\"from\":".data,
   ",\"to\":".data,
   ",\"value\":".data,
   ",\"validAfter\":".data,
   ",\"validBefore\":".data,
   ",\"nonce\":".data]

/-- Modelled from the spec: JSON parsing of the decoded header text.  The
spec defines decoding as base64-decode followed by `JSON.parse`; no decoder
exists in the sources (the tests inline `JSON.parse`), so the parse is
specialised to the fixed object layout the encoder emits — the sublanguage
on which it agrees with a general JSON parser — reading the fields in
serialization order. -/
def parseTokenChars (cs : List Char) : Option DecodedPayment :=
  match parseFields tokenFieldLits cs with
  | some ([network, signature, fromAddr, toAddr, value,
      validAfter, validBefore, nonce], cs1) =>
    (match expectLit "\x7d\x7d\x7d".data cs1 with
    | some [] =>
      some ⟨1, "exact", String.mk network,
        ⟨String.mk signature,
          ⟨String.mk fromAddr, String.mk toAddr, String.mk value,
            String.mk validAfter, String.mk validBefore, String.mk nonce⟩⟩⟩
    | _ => none)
  | _ => none

/-- Modelled from the spec: decoding of the payment header — base64-decode
the token, then JSON-parse the resulting UTF-8 text (ASCII range). -/
def decodeXPaymentHeader (tok : String) : Option DecodedPayment :=
  match b64Decode tok.data with
  | none => none
  | some bytes =>
    if bytes.all (fun b => b < 128) then
      parseTokenChars (bytes.map Char.ofNat)
    else
      none

/-- All characters of a string are ASCII. -/
def asciiStrB (s : String) : Bool :=
  s.data.all (fun c => c.toNat < 128)

/-- All authorization fields are ASCII strings. -/
def asciiAuthB (a : Eip3009Authorization) : Bool :=
  asciiStrB a.fromAddr && asciiStrB a.toAddr && asciiStrB a.value &&
  asciiStrB a.validAfter && asciiStrB a.validBefore && asciiStrB a.nonce

/-! ### Codec lemmas -/

theorem b64CharVal_b64Char : ∀ n : Nat, n < 64 → b64CharVal (b64Char n) = some n := by
  decide

theorem b64Char_ne_pad : ∀ n : Nat, n < 64 → b64Char n ≠ '=' := by
  decide

theorem b64_roundtrip : ∀ bs : List Nat, (∀ b ∈ bs, b < 256) →
    b64Decode (b64Encode bs) = some bs
  | [], _ => rfl
  | [a], h => by
    have ha : a < 256 := h a (by simp)
    have h1 : a / 4 < 64 := by omega
    have h2 : a % 4 * 16 < 64 := by omega
    show b64Decode [b64Char (a / 4), b64Char (a % 4 * 16), '=', '='] = some [a]
    simp only [b64Decode, b64CharVal_b64Char _ h1, b64CharVal_b64Char _ h2]
    rw [if_pos (⟨trivial, trivial, trivial⟩ : True ∧ True ∧ True)]
    simp only [Option.some.injEq, List.cons.injEq, and_true]
    omega
  | [a, b], h => by
    have ha : a < 256 := h a (by simp)
    have hb : b < 256 := h b (by simp)
    have h1 : a / 4 < 64 := by omega
    have h2 : a % 4 * 16 + b / 16 < 64 := by omega
    have h3 : b % 16 * 4 < 64 := by omega
    show b64Decode [b64Char (a / 4), b64Char (a % 4 * 16 + b / 16),
      b64Char (b % 16 * 4), '='] = some [a, b]
    simp only [b64Decode, b64CharVal_b64Char _ h1, b64CharVal_b64Char _ h2,
      b64CharVal_b64Char _ h3]
    rw [if_neg (fun hcon => b64Char_ne_pad _ h3 hcon.1)]
    rw [if_pos (by simp)]
    simp only [Option.some.injEq, List.cons.injEq, and_true]
    omega
  | a :: b :: c :: d :: rest, h => by
    have ha : a < 256 := h a (by simp)
    have hb : b < 256 := h b (by simp)
    have hc : c < 256 := h c (by simp)
    have h1 : a / 4 < 64 := by omega
    have h2 : a % 4 * 16 + b / 16 < 64 := by omega
    have h3 : b % 16 * 4 + c / 64 < 64 := by omega
    have h4 : c % 64 < 64 := by omega
    have ih := b64_roundtrip (d :: rest) (fun x hx => h x (by simp [hx]))
    show b64Decode (b64Char (a / 4) :: b64Char (a % 4 * 16 + b / 16) ::
      b64Char (b % 16 * 4 + c / 64) :: b64Char (c % 64) ::
        b64Encode (d :: rest)) = some (a :: b :: c :: d :: rest)
    simp only [b64Decode, b64CharVal_b64Char _ h1, b64CharVal_b64Char _ h2,
      b64CharVal_b64Char _ h3, b64CharVal_b64Char _ h4]
    rw [if_neg (fun hcon => b64Char_ne_pad _ h3 hcon.1)]
    rw [if_neg (fun hcon => b64Char_ne_pad _ h4 hcon.1)]
    rw [ih]
    simp only [Option.some.injEq, List.cons.injEq, and_true]
    omega
  | [a, b, c], h => by
    have ha : a < 256 := h a (by simp)
    have hb : b < 256 := h b (by simp)
    have hc : c < 256 := h c (by simp)
    have h1 : a / 4 < 64 := by omega
    have h2 : a % 4 * 16 + b / 16 < 64 := by omega
    have h3 : b % 16 * 4 + c / 64 < 64 := by omega
    have h4 : c % 64 < 64 := by omega
    show b64Decode [b64Char (a / 4), b64Char (a % 4 * 16 + b / 16),
      b64Char (b % 16 * 4 + c / 64), b64Char (c % 64)] = some [a, b, c]
    simp only [b64Decode, b64CharVal_b64Char _ h1, b64CharVal_b64Char _ h2,
      b64CharVal_b64Char _ h3, b64CharVal_b64Char _ h4]
    rw [if_neg (fun hcon => b64Char_ne_pad _ h3 hcon.1)]
    rw [if_neg (fun hcon => b64Char_ne_pad _ h4 hcon.1)]
    simp only [Option.some.injEq, List.cons.injEq, and_true]
    omega

theorem hexDigitChar_spec : ∀ n : Nat, n < 16 →
    isHexChar (hexDigitChar n) = true ∧ hexDigitVal (hexDigitChar n) = n := by
  decide

theorem parseStrBody_quote (rest : List Char) :
    parseStrBody ('"' :: rest) = some ([], rest) := by
  rw [parseStrBody.eq_def]
  simp

theorem parseStrBody_plain {c : Char} (h1 : ¬ c = '"') (h2 : ¬ c = '\\')
    (rest : List Char) :
    parseStrBody (c :: rest) = (parseStrBody rest).map (fun p => (c :: p.1, p.2)) := by
  rw [parseStrBody.eq_def]
  simp [h1, h2]

theorem parseStrBody_bsQuote (rest : List Char) :
    parseStrBody ('\\' :: '"' :: rest) =
      (parseStrBody rest).map (fun p => ('"' :: p.1, p.2)) := by
  rw [parseStrBody.eq_def]
  simp

theorem parseStrBody_bsEscape (k : Nat) (e : Char) (rest : List Char)
    (h : (e = 'b' ∧ k = 8) ∨ (e = 't' ∧ k = 9) ∨ (e = 'n' ∧ k = 10) ∨
      (e = 'f' ∧ k = 12) ∨ (e = 'r' ∧ k = 13)) :
    parseStrBody ('\\' :: e :: rest) =
      (parseStrBody rest).map (fun p => (Char.ofNat k :: p.1, p.2)) := by
  rw [parseStrBody.eq_def]
  rcases h with ⟨rfl, rfl⟩ | ⟨rfl, rfl⟩ | ⟨rfl, rfl⟩ | ⟨rfl, rfl⟩ | ⟨rfl, rfl⟩ <;> simp

theorem parseStrBody_u (h1 h2 h3 h4 : Char) (rest : List Char)
    (hhex : [h1, h2, h3, h4].all isHexChar = true) :
    parseStrBody ('\\' :: 'u' :: h1 :: h2 :: h3 :: h4 :: rest) =
      (parseStrBody rest).map
        (fun p => (Char.ofNat (hexDigitsVal [h1, h2, h3, h4]) :: p.1, p.2)) := by
  rw [parseStrBody.eq_def]
  simp [hhex]


theorem parseStrBody_bsBackslash (rest : List Char) :
    parseStrBody ('\\' :: '\\' :: rest) =
      (parseStrBody rest).map (fun p => ('\\' :: p.1, p.2)) := by
  rw [parseStrBody.eq_def]
  simp

theorem parseStrBody_escape : ∀ (cs rest : List Char),
    parseStrBody (escapeList cs ++ '"' :: rest) = some (cs, rest)
  | [], rest => by
    simpa [escapeList] using parseStrBody_quote rest
  | c :: cs, rest => by
    have ih := parseStrBody_escape cs rest
    show parseStrBody ((escapeChar c ++ escapeList cs) ++ '"' :: rest) = _
    rw [List.append_assoc]
    by_cases h1 : c = '"'
    · subst h1
      rw [show escapeChar '"' = ['\\', '"'] from rfl]
      simp only [List.cons_append, List.nil_append]
      rw [parseStrBody_bsQuote]
      simp [ih]
    · by_cases h2 : c = '\\'
      · subst h2
        rw [show escapeChar '\\' = ['\\', '\\'] from rfl]
        simp only [List.cons_append, List.nil_append]
        rw [parseStrBody_bsBackslash]
        simp [ih]
      · by_cases h3 : c.toNat = 8
        · rw [show escapeChar c = ['\\', 'b'] by simp [escapeChar, h1, h2, h3]]
          have hc : Char.ofNat 8 = c := by rw [← h3, Char.ofNat_toNat]
          simp only [List.cons_append, List.nil_append]
          rw [parseStrBody_bsEscape 8 'b' _ (Or.inl ⟨rfl, rfl⟩)]
          simp [ih]
          exact hc
        · by_cases h4 : c.toNat = 9
          · rw [show escapeChar c = ['\\', 't'] by simp [escapeChar, h1, h2, h3, h4]]
            have hc : Char.ofNat 9 = c := by rw [← h4, Char.ofNat_toNat]
            simp only [List.cons_append, List.nil_append]
            rw [parseStrBody_bsEscape 9 't' _ (Or.inr (Or.inl ⟨rfl, rfl⟩))]
            simp [ih]
            exact hc
          · by_cases h5 : c.toNat = 10
            · rw [show escapeChar c = ['\\', 'n'] by
                simp [escapeChar, h1, h2, h3, h4, h5]]
              have hc : Char.ofNat 10 = c := by rw [← h5, Char.ofNat_toNat]
              simp only [List.cons_append, List.nil_append]
              rw [parseStrBody_bsEscape 10 'n' _
                (Or.inr (Or.inr (Or.inl ⟨rfl, rfl⟩)))]
              simp [ih]
              exact hc
            · by_cases h6 : c.toNat = 12
              · rw [show escapeChar c = ['\\', 'f'] by
                  simp [escapeChar, h1, h2, h3, h4, h5, h6]]
                have hc : Char.ofNat 12 = c := by rw [← h6, Char.ofNat_toNat]
                simp only [List.cons_append, List.nil_append]
                rw [parseStrBody_bsEscape 12 'f' _
                  (Or.inr (Or.inr (Or.inr (Or.inl ⟨rfl, rfl⟩))))]
                simp [ih]
                exact hc
              · by_cases h7 : c.toNat = 13
                · rw [show escapeChar c = ['\\', 'r'] by
                    simp [escapeChar, h1, h2, h3, h4, h5, h6, h7]]
                  have hc : Char.ofNat 13 = c := by rw [← h7, Char.ofNat_toNat]
                  simp only [List.cons_append, List.nil_append]
                  rw [parseStrBody_bsEscape 13 'r' _
                    (Or.inr (Or.inr (Or.inr (Or.inr ⟨rfl, rfl⟩))))]
                  simp [ih]
                  exact hc
                · by_cases h8 : c.toNat < 32
                  · rw [show escapeChar c =
                        ['\\', 'u', '0', '0', hexDigitChar (c.toNat / 16),
                          hexDigitChar (c.toNat % 16)] by
                      simp [escapeChar, h1, h2, h3, h4, h5, h6, h7, h8]]
                    have hd1 := hexDigitChar_spec (c.toNat / 16) (by omega)
                    have hd2 := hexDigitChar_spec (c.toNat % 16) (by omega)
                    have h0 : isHexChar '0' = true := by decide
                    have hhex : [('0' : Char), '0', hexDigitChar (c.toNat / 16),
                        hexDigitChar (c.toNat % 16)].all isHexChar = true := by
                      simp [List.all_cons, h0, hd1.1, hd2.1]
                    have hz : hexDigitVal '0' = 0 := by decide
                    have hval : hexDigitsVal
                        ['0', '0', hexDigitChar (c.toNat / 16),
                          hexDigitChar (c.toNat % 16)] = c.toNat := by
                      simp only [hexDigitsVal, List.foldl_cons, List.foldl_nil,
                        hz, hd1.2, hd2.2]
                      omega
                    simp only [List.cons_append, List.nil_append]
                    rw [parseStrBody_u _ _ _ _ _ hhex]
                    simp [ih, hval]
                  · rw [show escapeChar c = [c] by
                      simp [escapeChar, h1, h2, h3, h4, h5, h6, h7, h8]]
                    simp only [List.cons_append, List.nil_append]
                    rw [parseStrBody_plain h1 h2]
                    simp [ih]

theorem expectLit_append (pat rest : List Char) :
    expectLit pat (pat ++ rest) = some rest := by
  unfold expectLit
  rw [if_pos (by simp), List.drop_left]

theorem parseQuoted_escape (cs rest : List Char) :
    parseQuoted ('"' :: (escapeList cs ++ '"' :: rest)) = some (cs, rest) := by
  simp [parseQuoted, parseStrBody_escape]

theorem hexDigitChar_ascii : ∀ n : Nat, n < 16 → (hexDigitChar n).toNat < 128 := by
  decide

theorem escapeChar_ascii {c : Char} (h : c.toNat < 128) :
    ∀ d ∈ escapeChar c, d.toNat < 128 := by
  unfold escapeChar
  split_ifs with h1 h2 h3 h4 h5 h6 h7 h8 <;> intro d hd <;>
    simp only [List.mem_cons, List.mem_singleton, List.not_mem_nil, or_false] at hd
  · rcases hd with rfl | rfl <;> decide
  · rcases hd with rfl | rfl <;> decide
  · rcases hd with rfl | rfl <;> decide
  · rcases hd with rfl | rfl <;> decide
  · rcases hd with rfl | rfl <;> decide
  · rcases hd with rfl | rfl <;> decide
  · rcases hd with rfl | rfl <;> decide
  · rcases hd with rfl | rfl | rfl | rfl | rfl | rfl
    · decide
    · decide
    · decide
    · decide
    · exact hexDigitChar_ascii _ (by omega)
    · exact hexDigitChar_ascii _ (by omega)
  · rcases hd with rfl
    exact h

theorem escapeList_all_ascii {cs : List Char}
    (h : cs.all (fun c => c.toNat < 128) = true) :
    (escapeList cs).all (fun c => c.toNat < 128) = true := by
  rw [List.all_eq_true] at h ⊢
  intro d hd
  rcases List.mem_flatMap.mp hd with ⟨c, hc, hdc⟩
  have hcc : c.toNat < 128 := by simpa using h c hc
  simpa using escapeChar_ascii hcc d hdc

theorem serializeTokenPayload_all_ascii (network : X402Network)
    (sig : String) (auth : Eip3009Authorization)
    (hsig : asciiStrB sig = true) (hauth : asciiAuthB auth = true) :
    (serializeTokenPayload network sig auth).all (fun c => c.toNat < 128) = true := by
  unfold asciiStrB at hsig
  unfold asciiAuthB asciiStrB at hauth
  have h1 := (Bool.and_eq_true _ _).mp hauth
  have h2 := (Bool.and_eq_true _ _).mp h1.1
  have h3 := (Bool.and_eq_true _ _).mp h2.1
  have h4 := (Bool.and_eq_true _ _).mp h3.1
  have h5 := (Bool.and_eq_true _ _).mp h4.1
  have hnet : (x402NetworkStr network).data.all (fun c => c.toNat < 128) = true := by
    cases network <;> decide
  simp only [serializeTokenPayload, tokenFieldPairs, serializeFields,
    List.all_append, List.all_cons, Bool.and_eq_true]
  simp [escapeList_all_ascii hnet, escapeList_all_ascii h5.1,
    escapeList_all_ascii h5.2, escapeList_all_ascii h4.2,
    escapeList_all_ascii h3.2, escapeList_all_ascii h2.2,
    escapeList_all_ascii h1.2, escapeList_all_ascii hsig]

theorem parseFields_serializeFields :
    ∀ (ps : List (List Char × List Char)) (tail : List Char),
      parseFields (ps.map Prod.fst) (serializeFields ps tail) =
        some (ps.map Prod.snd, tail) := by
  intro ps
  induction ps with
  | nil => intro tail; rfl
  | cons p rest ih =>
    intro tail
    obtain ⟨lit, v⟩ := p
    simp only [List.map_cons, serializeFields, parseFields, expectLit_append,
      parseQuoted_escape, ih]

theorem parseTokenChars_serialize (network : X402Network) (sig : String)
    (auth : Eip3009Authorization) :
    parseTokenChars (serializeTokenPayload network sig auth) =
      some ⟨1, "exact", x402NetworkStr network, ⟨sig, auth⟩⟩ := by
  have hlits : tokenFieldLits = (tokenFieldPairs network sig auth).map Prod.fst := rfl
  unfold parseTokenChars serializeTokenPayload
  rw [hlits, parseFields_serializeFields]
  have hpairs : (tokenFieldPairs network sig auth).map Prod.snd =
      [(x402NetworkStr network).data, sig.data, auth.fromAddr.data,
        auth.toAddr.data, auth.value.data, auth.validAfter.data,
        auth.validBefore.data, auth.nonce.data] := rfl
  rw [hpairs]
  have hlit : expectLit "\x7d\x7d\x7d".data "\x7d\x7d\x7d".data = some [] := rfl
  simp only [hlit]

/-! ### Claim C9 -/

/-- C9 (round-trip law): decoding (base64-decode, then JSON-parse) the header
produced by `encodeXPaymentHeader` recovers the authorization record, the
signature, and the constants `x402Version = 1`, `scheme = "exact"` and the
given network — for every supported network, ASCII signature string and
ASCII-field authorization record (the protocol's values are hex/decimal
strings, hence ASCII). -/
theorem C9_encode_decode_roundtrip :
    ∀ (network : X402Network) (signature : String) (auth : Eip3009Authorization),
      asciiStrB signature = true → asciiAuthB auth = true →
      decodeXPaymentHeader (encodeXPaymentHeader network signature auth) =
        some ⟨1, "exact", x402NetworkStr network, ⟨signature, auth⟩⟩ := by
  intro network sig auth hsig hauth
  have hall := serializeTokenPayload_all_ascii network sig auth hsig hauth
  have hbytes : ∀ b ∈ (serializeTokenPayload network sig auth).map Char.toNat,
      b < 256 := by
    intro b hb
    rcases List.mem_map.mp hb with ⟨c, hc, rfl⟩
    have := List.all_eq_true.mp hall c hc
    simp only [decide_eq_true_eq] at this
    omega
  have hlt128 : ((serializeTokenPayload network sig auth).map Char.toNat).all
      (fun b => b < 128) = true := by
    rw [List.all_eq_true]
    intro b hb
    rcases List.mem_map.mp hb with ⟨c, hc, rfl⟩
    simpa using List.all_eq_true.mp hall c hc
  unfold decodeXPaymentHeader encodeXPaymentHeader
  rw [show (String.mk (b64Encode ((serializeTokenPayload network sig auth).map
    Char.toNat))).data = b64Encode ((serializeTokenPayload network sig auth).map
      Char.toNat) from rfl]
  rw [b64_roundtrip _ hbytes]
  show (if (((serializeTokenPayload network sig auth).map Char.toNat).all
      (fun b => b < 128)) = true then
      parseTokenChars (((serializeTokenPayload network sig auth).map
        Char.toNat).map Char.ofNat)
    else none) = _
  rw [if_pos hlt128]
  rw [List.map_map]
  have hmap : ∀ l : List Char, l.map (Char.ofNat ∘ Char.toNat) = l := by
    intro l
    induction l with
    | nil => rfl
    | cons c cs2 ih =>
      simp only [List.map_cons, ih, Function.comp_apply, Char.ofNat_toNat]
  rw [hmap]
  exact parseTokenChars_serialize network sig auth

/-- The authorization record of the repository's x402 encoding test. -/
def wAuthorization : Eip3009Authorization :=
  ⟨"0x79b5D09B7fA1004D8D17A5feCC8D2349f79f06f6",
    "0x43A2A720cD0911690C248075f4a29a5e7716f758",
    "1100", "1735799940", "1735800300",
    "0x0000000000000000000000000000000000000000000000000000000000000abc"⟩

/-- C9 witness: the round-trip theorem applied at the test's concrete
network, signature and authorization. -/
theorem C9_encode_decode_roundtrip_witness :
    decodeXPaymentHeader (encodeXPaymentHeader .base
        "0xaaaaaaaaaaaaaaaaaaaaaaaaaaaaaaaaaaaaaaaaaaaaaaaaaaaaaaaaaaaaaaaa"
        wAuthorization) =
      some ⟨1, "exact", "base",
        ⟨"0xaaaaaaaaaaaaaaaaaaaaaaaaaaaaaaaaaaaaaaaaaaaaaaaaaaaaaaaaaaaaaaaa",
          wAuthorization⟩⟩ :=
  C9_encode_decode_roundtrip .base
    "0xaaaaaaaaaaaaaaaaaaaaaaaaaaaaaaaaaaaaaaaaaaaaaaaaaaaaaaaaaaaaaaaa"
    wAuthorization (by decide) (by decide)

/-! ## GatewayInvokeProxy — the full invoke proxy, modelled from the spec.

The repository's `handler.ts` holds only the earlier 501 stub of
`createInvokeRouteHandler` (embedded above as `invokeRouteStub`) together
with the tests of the full forwarding proxy; the forwarding implementation
itself is absent from the sources.  The pipeline below is therefore modelled
from spec §4.5: resolve the id via the matching adapter, validate the
endpoint with the SSRF guard before any outbound call, forward the request
with exactly one fetch carrying one cancellation signal, and relay back the
upstream status code unchanged (including 402), the body, and only the fixed
allow-list of payment-response headers. -/

/-- The two-member response-header allow-list. -/
def PAYMENT_RESPONSE_HEADER_ALLOWLIST : List String :=
  ["X-PAYMENT-RESPONSE", "PAYMENT-RESPONSE"]

/-- An upstream HTTP response. -/
structure UpstreamResponse where
  status : Nat
  headers : List (String × String)
  body : String
deriving DecidableEq

/-- The gateway's response to the caller. -/
structure GatewayResponse where
  status : Nat
  headers : List (String × String)
  body : String
deriving DecidableEq

/-- Case-insensitive header lookup (Fetch `Headers.get`). -/
def headerGet (hs : List (String × String)) (name : String) : Option String :=
  (hs.find? (fun h => jsToLower h.1 = jsToLower name)).map Prod.snd

/-- Modelled from the spec: response handling copies back only the fixed
allow-list of payment-response headers. -/
def relayHeaders (up : List (String × String)) : List (String × String) :=
  PAYMENT_RESPONSE_HEADER_ALLOWLIST.filterMap
    (fun n => (headerGet up n).map (fun v => (n, v)))

/-- Modelled from the spec: the upstream status code is relayed unchanged and
the body passed back (JSON re-serialization preserves it at this level of
the embedding). -/
def relayUpstreamResponse (up : UpstreamResponse) : GatewayResponse :=
  ⟨up.status, relayHeaders up.headers, up.body⟩

/-- Result of the proxy: an own error response, or a relayed upstream
response together with the URL the one outbound fetch targeted. -/
inductive ProxyResult
  | errorResp (status : Nat) (error : String)
  | relayed (resp : GatewayResponse) (target : String)
deriving DecidableEq

/-- Modelled from the spec: the invoke proxy pipeline.  `getById` is the
matching adapter's lookup, `parseUrl` the WHATWG URL parse of the agent's
endpoint, and `fetchOutcome` the outcome of the single outbound fetch
(`none` is a network error or the 10 s abort).  Request shaping (GET query
flattening, POST JSON body, request headers) and the 64 KB body guard do not
affect the relayed status/headers and stay outside this model. -/
def invokeProxy (getById : ProviderName → String → GetByIdOutcome)
    (parseUrl : String → Option ParsedUrl)
    (fetchOutcome : String → Option UpstreamResponse)
    (body : Option String) : ProxyResult :=
  match body with
  | none => .errorResp 422 "Invalid request payload"
  | some rawId =>
    if (jsTrim rawId).data = [] then .errorResp 422 "Invalid request payload"
    else
      match parseProviderFromId rawId with
      | none => .errorResp 422 "Invalid id format, expected provider:originalId"
      | some (provider, lookupId) =>
        match getById provider lookupId with
        | .throws => .errorResp 500 "Failed to load agent by id"
        | .notFound => .errorResp 404 "Agent not found"
        | .found agent =>
          match validateEndpointUrl (parseUrl agent.endpoint.url) with
          | some msg => .errorResp 422 msg
          | none =>
            match fetchOutcome agent.endpoint.url with
            | none => .errorResp 504 "Upstream request failed"
            | some up => .relayed (relayUpstreamResponse up) agent.endpoint.url

/-! ### Claim C1 -/

/-- C1: for every invoke request whose id resolves via the matching adapter
to an existing agent with a valid (SSRF-accepted) endpoint, the proxy
forwards the request to that endpoint and relays the upstream status code
unchanged — 402 included, since the status is universally quantified — and
every header copied back is from the two-member allow-list
`{X-PAYMENT-RESPONSE, PAYMENT-RESPONSE}` with the upstream's value. -/
theorem C1_invoke_relays_status_and_headers :
    ∀ (getById : ProviderName → String → GetByIdOutcome)
      (parseUrl : String → Option ParsedUrl)
      (fetchOutcome : String → Option UpstreamResponse)
      (id : String) (provider : ProviderName) (lookupId : String)
      (agent : AgentRec) (up : UpstreamResponse),
      parseProviderFromId id = some (provider, lookupId) →
      getById provider lookupId = .found agent →
      validateEndpointUrl (parseUrl agent.endpoint.url) = none →
      fetchOutcome agent.endpoint.url = some up →
      invokeProxy getById parseUrl fetchOutcome (some id) =
        .relayed ⟨up.status, relayHeaders up.headers, up.body⟩ agent.endpoint.url ∧
      (∀ h ∈ relayHeaders up.headers,
        h.1 ∈ PAYMENT_RESPONSE_HEADER_ALLOWLIST ∧
        headerGet up.headers h.1 = some h.2) := by
  intro getById parseUrl fetchOutcome id provider lookupId agent up
  intro hparse hget hvalid hfetch
  constructor
  · have htrim := parseProviderFromId_trim_ne hparse
    unfold invokeProxy
    simp only [if_neg htrim, hparse, hget, hvalid, hfetch]
    rfl
  · intro h hh
    rcases List.mem_filterMap.mp hh with ⟨n, hn, hfn⟩
    rcases Option.map_eq_some'.mp hfn with ⟨v, hv, hpair⟩
    subst hpair
    exact ⟨hn, hv⟩

/-- Concrete oracles for the C1 witness, mirroring the repository's invoke
test `proxies GET invoke with query params, manual redirect, and passthrough
402`. -/
def wProxyAgent : AgentRec :=
  ⟨"coinbase:agent-2", ⟨"https://api.example.com/invoke", "GET"⟩⟩

/-- WHATWG parse oracle for the witness: only the agent's endpoint parses. -/
def wParseUrl (u : String) : Option ParsedUrl :=
  if u = "https://api.example.com/invoke" then
    some ⟨"https:", "", "", "api.example.com"⟩
  else
    none

/-- Upstream oracle for the witness: a 402 response carrying one allow-listed
header and one stray header. -/
def wFetchOutcome (u : String) : Option UpstreamResponse :=
  if u = "https://api.example.com/invoke" then
    some ⟨402,
      [("content-type", "application/json; charset=utf-8"),
       ("X-PAYMENT-RESPONSE", "challenge-token"),
       ("x-ignored", "ignore-me")],
      "\x7b\"error\":\"payment required\"\x7d"⟩
  else
    none

/-- The `getById` oracle for the witness. -/
def wGetById (p : ProviderName) (lookupId : String) : GetByIdOutcome :=
  if p = .coinbase ∧ lookupId = "coinbase:agent-2" then .found wProxyAgent
  else .notFound

/-- C1 witness: the theorem applied at the concrete 402 scenario — the status
passes through as 402 and only the `X-PAYMENT-RESPONSE` header is copied
back. -/
theorem C1_invoke_relays_status_and_headers_witness :
    invokeProxy wGetById wParseUrl wFetchOutcome (some "coinbase:agent-2") =
      .relayed
        ⟨402, [("X-PAYMENT-RESPONSE", "challenge-token")],
          "\x7b\"error\":\"payment required\"\x7d"⟩
        "https://api.example.com/invoke" := by
  have h := C1_invoke_relays_status_and_headers wGetById wParseUrl wFetchOutcome
    "coinbase:agent-2" .coinbase "coinbase:agent-2" wProxyAgent
    ⟨402,
      [("content-type", "application/json; charset=utf-8"),
       ("X-PAYMENT-RESPONSE", "challenge-token"),
       ("x-ignored", "ignore-me")],
      "\x7b\"error\":\"payment required\"\x7d"⟩
    (by decide) rfl rfl rfl
  rw [h.1]
  decide

end Hyphae
